import Mathlib

/-!
Verification development for the aspen operation engine
(`src/libs/operation.js`): a command-pattern tree of reversible
operations.  The engine is shallowly embedded below: each JS execution
context becomes a node of an inductive tree `Ctx`, handles and contexts
are identified (the JS history map is only dereferenced through handles,
and the modelled scenarios never alias a context under two parents), and
the async control flow of `exec`/`undo` is rendered as fuel-indexed
state-passing functions.  User `exec`/`undo` functions are modelled as
oracles mapping (execID, attempt index) to an outcome; the operation
template installs no hook functions, so every `if (op.xxxHook)` guard of
the source is false and those branches are omitted together with the
re-entrant `opInstance.exec()` calls they contain (the two unconditional
re-entrant graft checks, after the before-child and after a successful
user exec, are kept).  `Util.wait` is an injected clock and is modelled
as a no-op.
-/

set_option maxHeartbeats 1000000

namespace Aspen

/-- Result values: the heterogeneous entries of `execResults`, `undoResults`,
`opResults` and `opUndoResults`.  `value`/`errVal` are user-produced values
and errors tagged by an opaque label; `sysError code id` models an engine
`Error` carrying `statusCode` (400 bad input, 404 not found, 409 conflict);
`tyErr` models a raw JS `TypeError`; `undef` is the JS value `undefined`
(appended by `Array.prototype.concat(undefined)`); `nested l` is an array
pushed as a single element by `Array.prototype.push`. -/
inductive RVal where
  | value : Nat → RVal
  | errVal : Nat → RVal
  | sysError : Nat → Nat → RVal
  | tyErr : RVal
  | undef : RVal
  | nested : List RVal → RVal

/-- Values raised by JS `throw`: either a results array or a single value. -/
inductive Thrown where
  | arr : List RVal → Thrown
  | single : RVal → Thrown

/-- Model of `xs.concat(err)`: concatenating an array appends its elements,
concatenating a non-array appends one element. -/
def concatJS (l : List RVal) : Thrown → List RVal
  | .arr xs => l ++ xs
  | .single v => l ++ [v]

/-- Model of `xs.push(err)`: an array is pushed as a single nested element. -/
def Thrown.toPush : Thrown → RVal
  | .arr xs => .nested xs
  | .single v => v

/-- Elements contributed by a thrown value under `concat`. -/
def Thrown.elems : Thrown → List RVal
  | .arr xs => xs
  | .single v => [v]

/-- Outcome of one invocation of a user exec or undo function:
resolve with an optional (possibly falsy) value, or reject with an error. -/
inductive UserOut where
  | succeed : Option RVal → UserOut
  | fail : RVal → UserOut

/-- Invocation events recorded while the engine runs: each invocation of a
user exec or undo function, tagged with the execID of the owning context
and the attempt counter passed to the oracle. -/
inductive Event where
  | execCall : Nat → Nat → Event
  | undoCall : Nat → Nat → Event
  deriving DecidableEq

/-- The `ctx.phases` flag record.  Absent JS fields are `false`/`none`. -/
structure Phases where
  beforeChildExecuted : Bool := false
  beforeChildSucceeded : Bool := false
  completedBeforeChild : Bool := false
  execFunctionExecuted : Bool := false
  execFunctionSucceeded : Bool := false
  completedExecFunction : Bool := false
  afterChildExecuted : Bool := false
  afterChildSucceeded : Bool := false
  completedAfterChild : Bool := false
  undoFunctionSucceeded : Bool := false
  execFunctionAttempt : Option Nat := none
  undoFunctionAttempt : Option Nat := none
  deriving DecidableEq

/-- Scalar fields of an execution context.  `execFunction`/`undoFunction`
are the template closures captured by the handle (`const execFunction =
op.exec`), carried on the node for convenience; they survive `reset`.
`numTries = 0` and `retryInterval = 0` stand for the absent (falsy) JS
fields, consistently with the defaulting `if (!numTries) numTries = 1`.
`parentID` models the `parent` back-reference by its execID only. -/
structure CtxCore where
  execID : Nat := 0
  execFunction : Option (Nat → Nat → UserOut) := none
  undoFunction : Option (Nat → Nat → UserOut) := none
  params : List Nat := []
  parentID : Option Nat := none
  execResults : List RVal := []
  undoResults : List RVal := []
  opResults : List RVal := []
  opUndoResults : List RVal := []
  phases : Phases := {}
  executing : Bool := false
  undoing : Bool := false
  numTries : Nat := 0
  retryInterval : Nat := 0

/-- An execution context (identified with its handle).  The recursive
fields are the `beforeChild`/`afterChild` slots, the `pendingDuringChild`
staging slot (`Sum.inl` a single handle, `Sum.inr` a raw JS array of
handles, which `addChild` stores unwrapped while executing), and the
flattened `ctx.duringChildren` record: `dcBeforeSlot`, `dcDuringSlot`,
`dcAfterSlot` are its `beforeChild`, `duringChild` and `afterChild`
composite entries (`none` both when the slot is missing and when
`ctx.duringChildren` itself is undefined, which the source never
distinguishes observably). -/
inductive Ctx where
  | mk : CtxCore → Option Ctx → Option Ctx → Option (Ctx ⊕ List Ctx) →
      Option Ctx → Option Ctx → Option Ctx → Ctx

/-- Scalar part of a context. -/
def Ctx.core : Ctx → CtxCore
  | .mk k _ _ _ _ _ _ => k

/-- The `beforeChild` slot. -/
def Ctx.beforeChild : Ctx → Option Ctx
  | .mk _ b _ _ _ _ _ => b

/-- The `afterChild` slot. -/
def Ctx.afterChild : Ctx → Option Ctx
  | .mk _ _ a _ _ _ _ => a

/-- The `pendingDuringChild` staging slot. -/
def Ctx.pendingDuringChild : Ctx → Option (Ctx ⊕ List Ctx)
  | .mk _ _ _ p _ _ _ => p

/-- The `duringChildren.beforeChild` composite. -/
def Ctx.dcBeforeSlot : Ctx → Option Ctx
  | .mk _ _ _ _ db _ _ => db

/-- The `duringChildren.duringChild` composite. -/
def Ctx.dcDuringSlot : Ctx → Option Ctx
  | .mk _ _ _ _ _ dd _ => dd

/-- The `duringChildren.afterChild` composite. -/
def Ctx.dcAfterSlot : Ctx → Option Ctx
  | .mk _ _ _ _ _ _ da => da

/-- Update the scalar part of a context. -/
def Ctx.withCore (c : Ctx) (f : CtxCore → CtxCore) : Ctx :=
  match c with
  | .mk k b a p db dd da => .mk (f k) b a p db dd da

/-- Replace the `beforeChild` slot. -/
def Ctx.setBeforeChild (c : Ctx) (x : Option Ctx) : Ctx :=
  match c with
  | .mk k _ a p db dd da => .mk k x a p db dd da

/-- Replace the `afterChild` slot. -/
def Ctx.setAfterChild (c : Ctx) (x : Option Ctx) : Ctx :=
  match c with
  | .mk k b _ p db dd da => .mk k b x p db dd da

/-- Replace the `pendingDuringChild` slot. -/
def Ctx.setPending (c : Ctx) (x : Option (Ctx ⊕ List Ctx)) : Ctx :=
  match c with
  | .mk k b a _ db dd da => .mk k b a x db dd da

/-- Replace the `duringChildren.beforeChild` composite. -/
def Ctx.setDcBefore (c : Ctx) (x : Option Ctx) : Ctx :=
  match c with
  | .mk k b a p _ dd da => .mk k b a p x dd da

/-- Replace the `duringChildren.duringChild` composite. -/
def Ctx.setDcDuring (c : Ctx) (x : Option Ctx) : Ctx :=
  match c with
  | .mk k b a p db _ da => .mk k b a p db x da

/-- Replace the `duringChildren.afterChild` composite. -/
def Ctx.setDcAfter (c : Ctx) (x : Option Ctx) : Ctx :=
  match c with
  | .mk k b a p db dd _ => .mk k b a p db dd x

/-- Model of `op.create(...params)`: a fresh context holding only
`execID` and `params` (plus the captured template closures). -/
def createCtx (id : Nat) (ps : List Nat)
    (tE tU : Option (Nat → Nat → UserOut)) : Ctx :=
  .mk { execID := id, execFunction := tE, undoFunction := tU, params := ps }
    none none none none none none

instance : Inhabited Ctx := ⟨createCtx 0 [] none none⟩

/-- Model of `module.exports().create()`: a handle on a fresh empty
template, used as a during-children slot composite.  Its uuid is opaque
and the composite itself is never executed, so the execID is irrelevant
and taken to be 0. -/
def freshComposite : Ctx := createCtx 0 [] none none

/-- Model of JS default-argument idiom `if (!x) x = d`. -/
def jsDefault (x d : Nat) : Nat := if x = 0 then d else x

/-- Argument of `addChild`: a single operation handle, an array of
handles, or a non-object primitive. -/
inductive ChildArg where
  | one : Ctx → ChildArg
  | many : List Ctx → ChildArg
  | prim : ChildArg

/-- Result of `addChild`: the updated handle, a synchronously thrown
error, or fuel exhaustion of the model. -/
inductive AddResult where
  | ok : Ctx → AddResult
  | err : RVal → AddResult
  | fuelOut : AddResult

/-- Model of `opInstance.addParent(parent)` on the stored child:
records the execID of the parent handle. -/
def setParent (c : Ctx) (p : Option Nat) : Ctx :=
  c.withCore fun k => { k with parentID := p }

/-- The pending slot content stored for a given `child` argument
(the source stores the raw `child`, not `finalChild`). -/
def ChildArg.asPending : ChildArg → Option (Ctx ⊕ List Ctx)
  | .one c => some (Sum.inl c)
  | .many l => some (Sum.inr l)
  | .prim => none

/-- Model of `opInstance.addChild(child, before, noParallel)`
(src/libs/operation.js lines 96-138).  Notes kept from the source:
on an array with `noParallel` truthy the first element is shifted off and
the rest are chained onto it as after-descendants; on an array with
`noParallel` falsy the source evaluates `this.create(child)` where `this`
is the initial CommonJS `exports` object (an empty object), so the call
raises a `TypeError` (modelled `RVal.tyErr`); a non-object child raises
the 400 bad-input error.  If the owning context is executing, the raw
`child` (post-shift for arrays) is staged into `pendingDuringChild`, or
merged into the staged handle by a further `addChild`; a staged raw array
has no `addChild` method, so merging into it raises a `TypeError`.
Otherwise the child is inserted: a before-child rotates the previous
before-child under the new one; an after-child is passed down to the
existing after-child when the slot is taken.  The fuel argument only
bounds the recursion depth of the model. -/
def addChildC : Nat → Ctx → ChildArg → Bool → Bool → AddResult
  | 0, _, _, _, _ => .fuelOut
  | Nat.succ fuel, self, child, before, noParallel =>
    let fc : AddResult × ChildArg :=
      match child with
      | .one c => (.ok c, .one c)
      | .prim => (.err (.sysError 400 self.core.execID), .prim)
      | .many l =>
        if noParallel then
          match l with
          | [] => (.err .tyErr, .many [])
          | c0 :: rest =>
            (match addChildC fuel c0 (.many rest) false noParallel with
             | .ok c0x => (.ok c0x, .many rest)
             | .err e => (.err e, .many rest)
             | .fuelOut => (.fuelOut, .many rest))
        else (.err .tyErr, .many l)
    match fc.1 with
    | .err e => .err e
    | .fuelOut => .fuelOut
    | .ok finalChild =>
      if self.core.executing then
        match self.pendingDuringChild with
        | none => .ok (self.setPending fc.2.asPending)
        | some (Sum.inl p) =>
          match addChildC fuel p fc.2 before noParallel with
          | .ok px => .ok (self.setPending (some (Sum.inl px)))
          | .err e => .err e
          | .fuelOut => .fuelOut
        | some (Sum.inr _) => .err .tyErr
      else
        if before then
          match self.beforeChild with
          | some oldBefore =>
            match addChildC fuel finalChild (.one oldBefore) true false with
            | .ok fcx =>
              .ok (self.setBeforeChild (some (setParent fcx (some self.core.execID))))
            | .err e => .err e
            | .fuelOut => .fuelOut
          | none =>
            .ok (self.setBeforeChild (some (setParent finalChild (some self.core.execID))))
        else
          match self.afterChild with
          | some oldAfter =>
            match addChildC fuel oldAfter (.one finalChild) false false with
            | .ok oax => .ok (self.setAfterChild (some oax))
            | .err e => .err e
            | .fuelOut => .fuelOut
          | none =>
            .ok (self.setAfterChild (some (setParent finalChild (some self.core.execID))))

/-- Model of `opInstance.reset()` (lines 157-175): the context record is
replaced by a fresh one keeping `execID`, `params`, `beforeChild` and
`afterChild` (every other field, including `parent`, `executing`,
`undoing`, `numTries`, `retryInterval`, `pendingDuringChild` and
`duringChildren`, reverts to absent), and the before- and after-children
are reset recursively. -/
def resetC : Ctx → Ctx
  | .mk k b a _ _ _ _ =>
    .mk { execID := k.execID, execFunction := k.execFunction,
          undoFunction := k.undoFunction, params := k.params }
      (match b with | none => none | some x => some (resetC x))
      (match a with | none => none | some x => some (resetC x))
      none none none none

/-- Status of a phase step inside the `try` block of `exec`/`undo`. -/
inductive StepRes where
  | ok : StepRes
  | thrown : Thrown → StepRes
  | fuelOut : StepRes

/-- Outcome of an `opInstance.exec` call: resolve with a results array,
resolve with `undefined` (the re-entrant no-op branch), reject with a
thrown value, or fuel exhaustion of the model. -/
inductive ExecRes where
  | ok : List RVal → ExecRes
  | undef : ExecRes
  | thrown : Thrown → ExecRes
  | fuelOut : ExecRes

/-- Outcome of an `opInstance.undo` call. -/
inductive UndoRes where
  | ok : List RVal → UndoRes
  | thrown : Thrown → UndoRes
  | fuelOut : UndoRes

/-- The value a resolved child exec contributes to a `concat` call:
`undefined` is appended as a single element. -/
def ExecRes.resolved : ExecRes → Option (List RVal)
  | .ok l => some l
  | .undef => some [RVal.undef]
  | _ => none

/-- Model of the `catch` block of `exec` (lines 479-483): append the
thrown value to `execResults`, clear `executing`, and re-raise the
accumulated `execResults`. -/
def execCatch (ctx : Ctx) (t : Thrown) : Ctx × ExecRes :=
  let c := ctx.withCore fun k =>
    { k with execResults := concatJS k.execResults t, executing := false }
  (c, .thrown (.arr c.core.execResults))

/-- Model of lines 253-264 of `exec`: stash the just-executed pending
child `pc` into the during-children composite of the slot selected by the
current phase flags, creating the composite if absent; the child is
attached in before position when the work of that slot has not yet
succeeded.  The composite assignment happens before the `addChild` call,
so a thrown `addChild` leaves the freshly created empty composite in
place. -/
def attachDuring (fuel : Nat) (ctx : Ctx) (pc : Ctx) : Ctx × StepRes :=
  if ctx.core.phases.completedExecFunction then
    let comp := ctx.dcAfterSlot.getD freshComposite
    let ctx1 := ctx.setDcAfter (some comp)
    match addChildC fuel comp (.one pc) (!ctx.core.phases.afterChildSucceeded) false with
    | .ok compx => (ctx.setDcAfter (some compx), .ok)
    | .err e => (ctx1, .thrown (.single e))
    | .fuelOut => (ctx1, .fuelOut)
  else if ctx.core.phases.completedBeforeChild then
    let comp := ctx.dcDuringSlot.getD freshComposite
    let ctx1 := ctx.setDcDuring (some comp)
    match addChildC fuel comp (.one pc) (!ctx.core.phases.execFunctionSucceeded) false with
    | .ok compx => (ctx.setDcDuring (some compx), .ok)
    | .err e => (ctx1, .thrown (.single e))
    | .fuelOut => (ctx1, .fuelOut)
  else
    let comp := ctx.dcBeforeSlot.getD freshComposite
    let ctx1 := ctx.setDcBefore (some comp)
    match addChildC fuel comp (.one pc) (!ctx.core.phases.beforeChildSucceeded) false with
    | .ok compx => (ctx.setDcBefore (some compx), .ok)
    | .err e => (ctx1, .thrown (.single e))
    | .fuelOut => (ctx1, .fuelOut)

/-- Model of the before-child phase of `exec` (lines 296-302 and the
`completedBeforeChild` assignment of line 325; the hook blocks in between
are absent).  `recur` is the re-entrant `opInstance.exec` used by the
graft check after a successful before-child. -/
def execBeforePhaseG (recur : Ctx → Nat → Nat → Ctx × ExecRes × List Event)
    (ctx : Ctx) (n r : Nat) : Ctx × StepRes × List Event :=
  match ctx.beforeChild with
  | none =>
    (ctx.withCore fun k => { k with phases := { k.phases with completedBeforeChild := true } },
     .ok, [])
  | some bc =>
    let ctxA := ctx.withCore fun k =>
      { k with phases := { k.phases with beforeChildExecuted := true } }
    let t := recur bc n r
    let ctxB := ctxA.setBeforeChild (some t.1)
    match t.2.1.resolved with
    | none =>
      match t.2.1 with
      | .thrown th => (ctxB, .thrown th, t.2.2)
      | _ => (ctxB, .fuelOut, t.2.2)
    | some l =>
      let ctxC := ctxB.withCore fun k =>
        { k with phases := { k.phases with beforeChildSucceeded := true },
                 execResults := k.execResults ++ l }
      let g := recur ctxC 0 0
      match g.2.1 with
      | .thrown th => (g.1, .thrown th, t.2.2 ++ g.2.2)
      | .fuelOut => (g.1, .fuelOut, t.2.2 ++ g.2.2)
      | _ =>
        ((g.1).withCore fun k => { k with phases := { k.phases with completedBeforeChild := true } },
         .ok, t.2.2 ++ g.2.2)

/-- Per-iteration bookkeeping of the exec retry loop (lines 352-353 and
376): clear `duringChildren`, record the attempt index and set
`execFunctionExecuted`. -/
def tryIterCtx (c : Ctx) (i : Nat) : Ctx :=
  (((c.setDcBefore none).setDcDuring none).setDcAfter none).withCore fun k =>
    { k with phases := { k.phases with execFunctionAttempt := some i,
                                       execFunctionExecuted := true } }

/-- Model of the retry loop body of `exec` (lines 351-406).  The loop
index `i` and the remaining iteration fuel are explicit; each iteration
clears `duringChildren`, records the attempt, sets `execFunctionExecuted`,
invokes the user exec oracle, and on success sets `execFunctionSucceeded`,
pushes a truthy result, and performs the re-entrant graft check whose
thrown value is caught and pushed into `opResults` (lines 375-384).
Failures push the error and wait (`Util.wait` is a no-op here). -/
def execTryLoopG (recur : Ctx → Nat → Nat → Ctx × ExecRes × List Event) :
    Nat → (Nat → Nat → UserOut) → Ctx → Nat → Nat → Nat → Ctx × StepRes × List Event
  | 0, _, ctx, _, _, _ => (ctx, .fuelOut, [])
  | Nat.succ fl, f, ctx, n, r, i =>
    if i < n ∧ ctx.core.phases.execFunctionSucceeded = false then
      let ctx2 := tryIterCtx ctx i
      let ev0 := [Event.execCall ctx2.core.execID i]
      match f ctx2.core.execID i with
      | .fail e =>
        let ctx3 := ctx2.withCore fun k => { k with opResults := k.opResults ++ [e] }
        let rest := execTryLoopG recur fl f ctx3 n r (i + 1)
        (rest.1, rest.2.1, ev0 ++ rest.2.2)
      | .succeed v? =>
        let ctx3 := ctx2.withCore fun k =>
          { k with phases := { k.phases with execFunctionSucceeded := true } }
        let ctx4 :=
          match v? with
          | some v => ctx3.withCore fun k => { k with opResults := k.opResults ++ [v] }
          | none => ctx3
        let g := recur ctx4 0 0
        match g.2.1 with
        | .fuelOut => (g.1, .fuelOut, ev0 ++ g.2.2)
        | .thrown th =>
          let ctx5 := g.1.withCore fun k => { k with opResults := k.opResults ++ [th.toPush] }
          let rest := execTryLoopG recur fl f ctx5 n r (i + 1)
          (rest.1, rest.2.1, ev0 ++ g.2.2 ++ rest.2.2)
        | _ =>
          let rest := execTryLoopG recur fl f g.1 n r (i + 1)
          (rest.1, rest.2.1, ev0 ++ g.2.2 ++ rest.2.2)
    else (ctx, .ok, [])

/-- Model of the user-exec phase of `exec` (lines 348-413 and the
`completedExecFunction` assignment of line 432): if the template has an
exec function, initialise `opResults`, run the retry loop (its iteration
fuel `numTries + 1` always suffices), then append `opResults` to
`execResults` on success or raise `opResults` on failure.  Absent the
exec function the block is skipped and only `completedExecFunction` is
set. -/
def execRetryPhaseG (recur : Ctx → Nat → Nat → Ctx × ExecRes × List Event)
    (ctx : Ctx) (n r : Nat) : Ctx × StepRes × List Event :=
  match ctx.core.execFunction with
  | none =>
    (ctx.withCore fun k => { k with phases := { k.phases with completedExecFunction := true } },
     .ok, [])
  | some f =>
    let ctx1 := ctx.withCore fun k => { k with opResults := [] }
    let t := execTryLoopG recur (Nat.succ n) f ctx1 n r 0
    match t.2.1 with
    | .fuelOut => (t.1, .fuelOut, t.2.2)
    | .thrown th => (t.1, .thrown th, t.2.2)
    | .ok =>
      if t.1.core.phases.execFunctionSucceeded then
        (t.1.withCore fun k =>
          { k with execResults := k.execResults ++ k.opResults,
                   phases := { k.phases with completedExecFunction := true } },
         .ok, t.2.2)
      else (t.1, .thrown (.arr t.1.core.opResults), t.2.2)

/-- Model of the after-child phase of `exec` (lines 451-456 and the
`completedAfterChild` assignment of line 475); there is no graft check
after the after-child in the source. -/
def execAfterPhaseG (recur : Ctx → Nat → Nat → Ctx × ExecRes × List Event)
    (ctx : Ctx) (n r : Nat) : Ctx × StepRes × List Event :=
  match ctx.afterChild with
  | none =>
    (ctx.withCore fun k => { k with phases := { k.phases with completedAfterChild := true } },
     .ok, [])
  | some ac =>
    let ctxA := ctx.withCore fun k =>
      { k with phases := { k.phases with afterChildExecuted := true } }
    let t := recur ac n r
    let ctxB := ctxA.setAfterChild (some t.1)
    match t.2.1.resolved with
    | none =>
      match t.2.1 with
      | .thrown th => (ctxB, .thrown th, t.2.2)
      | _ => (ctxB, .fuelOut, t.2.2)
    | some l =>
      (ctxB.withCore fun k =>
        { k with phases := { k.phases with afterChildSucceeded := true,
                                           completedAfterChild := true },
                 execResults := k.execResults ++ l },
       .ok, t.2.2)

/-- Model of `opInstance.exec(numTries, retryInterval)` (lines 226-484).
A falsy `execID` raises the 400 error before anything else.  On a context
already marked `executing`, a staged `pendingDuringChild` is drained: the
staged child is executed with the stored retry policy, its results are
concatenated on success (`undefined` appends one element), the updated
child is stashed into the proper during-children composite, the staging
slot is cleared before the result is returned or re-raised; with nothing
staged the call resolves `undefined` without touching the context; a
staged raw array has no `exec` method and raises a `TypeError` leaving
the context unchanged.  Otherwise the context is reset, flagged
executing with the (defaulted) retry policy recorded, and the before,
user-exec and after phases run inside the try/catch of lines 274-483. -/
def execF : Nat → Ctx → Nat → Nat → Ctx × ExecRes × List Event
  | 0, ctx, _, _ => (ctx, .fuelOut, [])
  | Nat.succ fuel, ctx, nIn, rIn =>
    if ctx.core.execID = 0 then (ctx, .thrown (.single (.sysError 400 0)), [])
    else
      let n := jsDefault nIn 1
      let r := jsDefault rIn 1000
      if ctx.core.executing then
        match ctx.pendingDuringChild with
        | none => (ctx, .undef, [])
        | some (Sum.inr _) => (ctx, .thrown (.single .tyErr), [])
        | some (Sum.inl pc) =>
          let t := execF fuel pc ctx.core.numTries ctx.core.retryInterval
          match t.2.1.resolved with
          | some l =>
            let ctx2 := ctx.withCore fun k => { k with execResults := k.execResults ++ l }
            let a := attachDuring fuel ctx2 t.1
            match a.2 with
            | .ok => ((a.1).setPending none, t.2.1, t.2.2)
            | .thrown th => (a.1, .thrown th, t.2.2)
            | .fuelOut => (a.1, .fuelOut, t.2.2)
          | none =>
            match t.2.1 with
            | .thrown terr =>
              let a := attachDuring fuel ctx t.1
              match a.2 with
              | .ok => ((a.1).setPending none, .thrown terr, t.2.2)
              | .thrown th => (a.1, .thrown th, t.2.2)
              | .fuelOut => (a.1, .fuelOut, t.2.2)
            | _ => (ctx, .fuelOut, t.2.2)
      else
        let ctx2 := (resetC ctx).withCore fun k =>
          { k with executing := true, numTries := n, retryInterval := r }
        let b := execBeforePhaseG (execF fuel) ctx2 n r
        match b.2.1 with
        | .fuelOut => (b.1, .fuelOut, b.2.2)
        | .thrown th =>
          let c := execCatch b.1 th
          (c.1, c.2, b.2.2)
        | .ok =>
          let d := execRetryPhaseG (execF fuel) b.1 n r
          match d.2.1 with
          | .fuelOut => (d.1, .fuelOut, b.2.2 ++ d.2.2)
          | .thrown th =>
            let c := execCatch d.1 th
            (c.1, c.2, b.2.2 ++ d.2.2)
          | .ok =>
            let a := execAfterPhaseG (execF fuel) d.1 n r
            match a.2.1 with
            | .fuelOut => (a.1, .fuelOut, b.2.2 ++ d.2.2 ++ a.2.2)
            | .thrown th =>
              let c := execCatch a.1 th
              (c.1, c.2, b.2.2 ++ d.2.2 ++ a.2.2)
            | .ok =>
              let cF := a.1.withCore fun k => { k with executing := false }
              (cF, .ok cF.core.execResults, b.2.2 ++ d.2.2 ++ a.2.2)

/-- Selector for the three during-children composites. -/
inductive DSlot where
  | beforeSlot
  | duringSlot
  | afterSlot

/-- Read a during-children composite. -/
def Ctx.getDc (c : Ctx) : DSlot → Option Ctx
  | .beforeSlot => c.dcBeforeSlot
  | .duringSlot => c.dcDuringSlot
  | .afterSlot => c.dcAfterSlot

/-- Write a during-children composite. -/
def Ctx.setDc (c : Ctx) : DSlot → Option Ctx → Ctx
  | .beforeSlot => c.setDcBefore
  | .duringSlot => c.setDcDuring
  | .afterSlot => c.setDcAfter

/-- Sequence two phase steps, short-circuiting on a thrown value or fuel
exhaustion; traces accumulate. -/
def stepBind (x : Ctx × StepRes × List Event)
    (f : Ctx → Ctx × StepRes × List Event) : Ctx × StepRes × List Event :=
  match x with
  | (c, .ok, ev) =>
    let y := f c
    (y.1, y.2.1, ev ++ y.2.2)
  | other => other

/-- Model of the six during-children undo steps of `undo` (lines 514-517,
524-527, 534-537, 567-570, 577-580, 587-590): if the selected composite
exists and holds a child in the selected position (`targetBefore` true
selects its before-child), undo that child.  The source passes
`ctx.numRetries`, a field that is never written (the stored field is
`numTries`), so the child undo receives an undefined (falsy) numTries,
modelled as 0, together with `ctx.retryInterval`.  A truthy result array
is concatenated into `undoResults`. -/
def undoDcChildG (urecur : Ctx → Nat → Nat → Ctx × UndoRes × List Event)
    (ctx : Ctx) (slot : DSlot) (targetBefore : Bool) : Ctx × StepRes × List Event :=
  match ctx.getDc slot with
  | none => (ctx, .ok, [])
  | some comp =>
    match (if targetBefore then comp.beforeChild else comp.afterChild) with
    | none => (ctx, .ok, [])
    | some tgt =>
      let u := urecur tgt 0 ctx.core.retryInterval
      let compx := if targetBefore then comp.setBeforeChild (some u.1)
                   else comp.setAfterChild (some u.1)
      let ctx1 := ctx.setDc slot (some compx)
      match u.2.1 with
      | .ok l => (ctx1.withCore fun k => { k with undoResults := k.undoResults ++ l },
                  .ok, u.2.2)
      | .thrown th => (ctx1, .thrown th, u.2.2)
      | .fuelOut => (ctx1, .fuelOut, u.2.2)

/-- Model of the after-child undo step (lines 519-522), guarded by the
`afterChildExecuted` phase flag. -/
def undoAfterChildStepG (urecur : Ctx → Nat → Nat → Ctx × UndoRes × List Event)
    (ctx : Ctx) (n r : Nat) : Ctx × StepRes × List Event :=
  if ctx.core.phases.afterChildExecuted = true then
    match ctx.afterChild with
    | none => (ctx, .ok, [])
    | some ac =>
      let u := urecur ac n r
      let ctx1 := ctx.setAfterChild (some u.1)
      match u.2.1 with
      | .ok l => (ctx1.withCore fun k => { k with undoResults := k.undoResults ++ l },
                  .ok, u.2.2)
      | .thrown th => (ctx1, .thrown th, u.2.2)
      | .fuelOut => (ctx1, .fuelOut, u.2.2)
  else (ctx, .ok, [])

/-- Model of the before-child undo step (lines 582-585), guarded by the
`beforeChildExecuted` phase flag. -/
def undoBeforeChildStepG (urecur : Ctx → Nat → Nat → Ctx × UndoRes × List Event)
    (ctx : Ctx) (n r : Nat) : Ctx × StepRes × List Event :=
  if ctx.core.phases.beforeChildExecuted = true then
    match ctx.beforeChild with
    | none => (ctx, .ok, [])
    | some bc =>
      let u := urecur bc n r
      let ctx1 := ctx.setBeforeChild (some u.1)
      match u.2.1 with
      | .ok l => (ctx1.withCore fun k => { k with undoResults := k.undoResults ++ l },
                  .ok, u.2.2)
      | .thrown th => (ctx1, .thrown th, u.2.2)
      | .fuelOut => (ctx1, .fuelOut, u.2.2)
  else (ctx, .ok, [])

/-- Model of the undo retry loop (lines 542-557): while `i < numTries`
and `undoFunctionSucceeded` is unset, record the attempt, invoke the user
undo oracle, push a truthy result or the error into `opUndoResults`, set
the success flag on success, and wait between failed attempts (no-op
clock).  The first argument is iteration fuel; callers pass
`numTries + 1`, which always suffices. -/
def undoTryLoop (g : Nat → Nat → UserOut) :
    Nat → Ctx → Nat → Nat → Nat → Ctx × List Event
  | 0, ctx, _, _, _ => (ctx, [])
  | Nat.succ fl, ctx, n, r, i =>
    if i < n ∧ ctx.core.phases.undoFunctionSucceeded = false then
      let ctx1 := ctx.withCore fun k =>
        { k with phases := { k.phases with undoFunctionAttempt := some i } }
      let ev0 := [Event.undoCall ctx1.core.execID i]
      match g ctx1.core.execID i with
      | .succeed v? =>
        let ctx2 :=
          match v? with
          | some v => ctx1.withCore fun k => { k with opUndoResults := k.opUndoResults ++ [v] }
          | none => ctx1
        let ctx3 := ctx2.withCore fun k =>
          { k with phases := { k.phases with undoFunctionSucceeded := true } }
        let rest := undoTryLoop g fl ctx3 n r (i + 1)
        (rest.1, ev0 ++ rest.2)
      | .fail e =>
        let ctx2 := ctx1.withCore fun k => { k with opUndoResults := k.opUndoResults ++ [e] }
        let rest := undoTryLoop g fl ctx2 n r (i + 1)
        (rest.1, ev0 ++ rest.2)
    else (ctx, [])

/-- Model of the user-undo step of `undo` (lines 539-565): only when both
`execFunctionExecuted` and `execFunctionSucceeded` are set, and the
template has an undo function, initialise `opUndoResults`, run the retry
loop, then raise `opUndoResults` if the undo never succeeded, otherwise
concatenate it into `undoResults`. -/
def undoUserStep (ctx : Ctx) (n r : Nat) : Ctx × StepRes × List Event :=
  if ctx.core.phases.execFunctionExecuted = true ∧
     ctx.core.phases.execFunctionSucceeded = true then
    match ctx.core.undoFunction with
    | none => (ctx, .ok, [])
    | some g =>
      let ctx1 := ctx.withCore fun k => { k with opUndoResults := [] }
      let t := undoTryLoop g (Nat.succ n) ctx1 n r 0
      if t.1.core.phases.undoFunctionSucceeded = false then
        (t.1, .thrown (.arr t.1.core.opUndoResults), t.2)
      else
        (t.1.withCore fun k => { k with undoResults := k.undoResults ++ k.opUndoResults },
         .ok, t.2)
  else (ctx, .ok, [])

/-- Entry bookkeeping of `undo` (lines 505-508): set `undoing`, record
the retry policy and clear `undoResults`. -/
def undoStart (ctx : Ctx) (n r : Nat) : Ctx :=
  ctx.withCore fun k =>
    { k with undoing := true, numTries := n, retryInterval := r, undoResults := [] }

/-- The mirror-order step chain of `undo` (the try block, lines 510-593,
with the hook invocations absent): after-slot during-children in after
position, the after-child, after-slot during-children in before position,
during-slot in after position, the user undo, during-slot in before
position, before-slot in after position, the before-child, before-slot in
before position. -/
def undoSteps (urecur : Ctx → Nat → Nat → Ctx × UndoRes × List Event)
    (ctx : Ctx) (n r : Nat) : Ctx × StepRes × List Event :=
  stepBind (undoDcChildG urecur ctx .afterSlot false) fun c1 =>
  stepBind (undoAfterChildStepG urecur c1 n r) fun c2 =>
  stepBind (undoDcChildG urecur c2 .afterSlot true) fun c3 =>
  stepBind (undoDcChildG urecur c3 .duringSlot false) fun c4 =>
  stepBind (undoUserStep c4 n r) fun c5 =>
  stepBind (undoDcChildG urecur c5 .duringSlot true) fun c6 =>
  stepBind (undoDcChildG urecur c6 .beforeSlot false) fun c7 =>
  stepBind (undoBeforeChildStepG urecur c7 n r) fun c8 =>
  undoDcChildG urecur c8 .beforeSlot true

/-- Exit bookkeeping of `undo` (lines 595-601): on success clear
`undoing` and resolve with `undoResults`; on a thrown value concatenate
it into `undoResults`, clear `undoing` and re-raise the accumulated
`undoResults`. -/
def undoFinish (x : Ctx × StepRes × List Event) : Ctx × UndoRes × List Event :=
  match x with
  | (c, .ok, ev) =>
    let cx := c.withCore fun k => { k with undoing := false }
    (cx, .ok cx.core.undoResults, ev)
  | (c, .thrown th, ev) =>
    let cx := c.withCore fun k =>
      { k with undoResults := concatJS k.undoResults th, undoing := false }
    (cx, .thrown (.arr cx.core.undoResults), ev)
  | (c, .fuelOut, ev) => (c, .fuelOut, ev)

/-- Model of `opInstance.undo(numTries, retryInterval)` (lines 495-602):
default the retry policy, raise the 409 conflict error synchronously (the
context untouched) when `undoing` is already set, otherwise record the
policy and walk the mirror-order step chain inside the try/catch. -/
def undoF : Nat → Ctx → Nat → Nat → Ctx × UndoRes × List Event
  | 0, ctx, _, _ => (ctx, .fuelOut, [])
  | Nat.succ fuel, ctx, nIn, rIn =>
    let n := jsDefault nIn 1
    let r := jsDefault rIn 1000
    if ctx.core.undoing then
      (ctx, .thrown (.single (.sysError 409 ctx.core.execID)), [])
    else undoFinish (undoSteps (undoF fuel) (undoStart ctx n r) n r)

/-- A context tree is quiet when, hereditarily, no node is executing or
undoing and no node has a staged pending child. -/
def Quiet : Ctx → Bool
  | .mk k b a p db dd da =>
    !k.executing && !k.undoing && p.isNone
    && (match b with | none => true | some x => Quiet x)
    && (match a with | none => true | some x => Quiet x)
    && (match db with | none => true | some x => Quiet x)
    && (match dd with | none => true | some x => Quiet x)
    && (match da with | none => true | some x => Quiet x)

/-- Quietness of an optional child. -/
def quietOpt : Option Ctx → Bool
  | none => true
  | some c => Quiet c

/-- Mid-execution shape of the node currently being executed: the
executing flag is set, the undoing flag is not, nothing is staged, and
all children are quiet. -/
def Mid : Ctx → Bool
  | .mk k b a p db dd da =>
    k.executing && !k.undoing && p.isNone
    && (match b with | none => true | some x => Quiet x)
    && (match a with | none => true | some x => Quiet x)
    && (match db with | none => true | some x => Quiet x)
    && (match dd with | none => true | some x => Quiet x)
    && (match da with | none => true | some x => Quiet x)

/-- Mid-undo shape of the node currently being undone: the executing
flag is not set, nothing is staged, and all children are quiet (the
undoing flag itself is unconstrained). -/
def MidU : Ctx → Bool
  | .mk k b a p db dd da =>
    !k.executing && p.isNone
    && (match b with | none => true | some x => Quiet x)
    && (match a with | none => true | some x => Quiet x)
    && (match db with | none => true | some x => Quiet x)
    && (match dd with | none => true | some x => Quiet x)
    && (match da with | none => true | some x => Quiet x)

/-- States of one context reachable from a fresh `create` by any sequence
of completed `exec` and `undo` calls (a fuel-exhausted call has no JS
counterpart and therefore no post-state). -/
inductive Reach : Ctx → Prop where
  | init : ∀ id ps tE tU, Reach (createCtx id ps tE tU)
  | stepExec : ∀ {c c' res ev} (fuel n r : Nat), Reach c →
      execF fuel c n r = (c', res, ev) → res ≠ .fuelOut → Reach c'
  | stepUndo : ∀ {c c' res ev} (fuel n r : Nat), Reach c →
      undoF fuel c n r = (c', res, ev) → res ≠ .fuelOut → Reach c'

/-- One list extends another by appending: the append-only order on
result buffers. -/
def Grows (a b : List RVal) : Prop := ∃ t, b = a ++ t

/-- Number of user exec invocations in a trace. -/
def countExecCalls (tr : List Event) : Nat :=
  (tr.filter fun e => match e with | .execCall _ _ => true | _ => false).length

/-- Number of user undo invocations in a trace. -/
def countUndoCalls (tr : List Event) : Nat :=
  (tr.filter fun e => match e with | .undoCall _ _ => true | _ => false).length

/-- Oracle that always succeeds, returning a value tagged by the
execID it was invoked with. -/
def okOracle : Nat → Nat → UserOut := fun id _ => .succeed (some (.value id))

/-- Oracle whose undo always fails. -/
def failOracle : Nat → Nat → UserOut := fun _ _ => .fail (.errVal 4)

/-- C1 scenario, root handle: execID 1. -/
def c1Root : Ctx := createCtx 1 [] (some okOracle) none

/-- C1 scenario, child A: execID 2. -/
def c1A : Ctx := createCtx 2 [] (some okOracle) none

/-- C1 scenario, child B: execID 3. -/
def c1B : Ctx := createCtx 3 [] (some okOracle) none

/-- C1 scenario: the root after `root.addChild(A, true)`. -/
def c1Tree1 : Ctx :=
  match addChildC 10 c1Root (.one c1A) true false with
  | .ok c => c
  | _ => default

/-- C1 scenario: the root after `root.addChild(A, true).addChild(B, true)`. -/
def c1Tree2 : Ctx :=
  match addChildC 10 c1Tree1 (.one c1B) true false with
  | .ok c => c
  | _ => default

/-- C3 counterexample scenario: a context whose exec succeeded once and
whose user undo always fails, as left by a completed `exec()`. -/
def c3ExecedCtx : Ctx := (execF 30 (createCtx 5 [] (some okOracle) (some failOracle)) 1 1).1

/-- Oracle failing on attempt 0 and succeeding on attempt 1. -/
def retryOracle : Nat → Nat → UserOut :=
  fun _ i => if i = 0 then .fail (.errVal 5) else .succeed (some (.value 9))

/-- A context mid-execution with nothing staged (witness input). -/
def busyIdleCtx : Ctx :=
  (createCtx 4 [] none none).withCore fun k => { k with executing := true }

/-- A context mid-execution holding a staged pending child (witness
input for the drain). -/
def busyPendingCtx : Ctx :=
  ((createCtx 4 [] none none).withCore fun k =>
    { k with executing := true, numTries := 1, retryInterval := 1 }).setPending
    (some (Sum.inl (createCtx 6 [] (some okOracle) none)))

/-- A context mid-execution of the retry loop (witness input for the
retry count). -/
def retryMidCtx : Ctx :=
  (createCtx 7 [] (some retryOracle) none).withCore fun k => { k with executing := true }

/-- A context already marked undoing (witness input for the conflict). -/
def undoingCtx : Ctx :=
  (createCtx 8 [] none none).withCore fun k => { k with undoing := true }

/-- A context whose user exec always fails (input of the C4 witness). -/
def failExecCtx : Ctx := createCtx 9 [] (some failOracle) none

/-!  ## Theorems

First a block of mechanical projection lemmas for the context accessors
and updaters, then the shared engine lemmas, then one theorem (plus
counterexample and witness where required) per claim.  -/

theorem core_withCore (c : Ctx) (f : CtxCore → CtxCore) :
    (c.withCore f).core = f c.core := by cases c; rfl

theorem beforeChild_withCore (c : Ctx) (f : CtxCore → CtxCore) :
    (c.withCore f).beforeChild = c.beforeChild := by cases c; rfl

theorem afterChild_withCore (c : Ctx) (f : CtxCore → CtxCore) :
    (c.withCore f).afterChild = c.afterChild := by cases c; rfl

theorem pending_withCore (c : Ctx) (f : CtxCore → CtxCore) :
    (c.withCore f).pendingDuringChild = c.pendingDuringChild := by cases c; rfl

theorem dcBefore_withCore (c : Ctx) (f : CtxCore → CtxCore) :
    (c.withCore f).dcBeforeSlot = c.dcBeforeSlot := by cases c; rfl

theorem dcDuring_withCore (c : Ctx) (f : CtxCore → CtxCore) :
    (c.withCore f).dcDuringSlot = c.dcDuringSlot := by cases c; rfl

theorem dcAfter_withCore (c : Ctx) (f : CtxCore → CtxCore) :
    (c.withCore f).dcAfterSlot = c.dcAfterSlot := by cases c; rfl

theorem core_setBeforeChild (c : Ctx) (x : Option Ctx) :
    (c.setBeforeChild x).core = c.core := by cases c; rfl

theorem beforeChild_setBeforeChild (c : Ctx) (x : Option Ctx) :
    (c.setBeforeChild x).beforeChild = x := by cases c; rfl

theorem afterChild_setBeforeChild (c : Ctx) (x : Option Ctx) :
    (c.setBeforeChild x).afterChild = c.afterChild := by cases c; rfl

theorem pending_setBeforeChild (c : Ctx) (x : Option Ctx) :
    (c.setBeforeChild x).pendingDuringChild = c.pendingDuringChild := by cases c; rfl

theorem dcBefore_setBeforeChild (c : Ctx) (x : Option Ctx) :
    (c.setBeforeChild x).dcBeforeSlot = c.dcBeforeSlot := by cases c; rfl

theorem dcDuring_setBeforeChild (c : Ctx) (x : Option Ctx) :
    (c.setBeforeChild x).dcDuringSlot = c.dcDuringSlot := by cases c; rfl

theorem dcAfter_setBeforeChild (c : Ctx) (x : Option Ctx) :
    (c.setBeforeChild x).dcAfterSlot = c.dcAfterSlot := by cases c; rfl

theorem core_setAfterChild (c : Ctx) (x : Option Ctx) :
    (c.setAfterChild x).core = c.core := by cases c; rfl

theorem beforeChild_setAfterChild (c : Ctx) (x : Option Ctx) :
    (c.setAfterChild x).beforeChild = c.beforeChild := by cases c; rfl

theorem afterChild_setAfterChild (c : Ctx) (x : Option Ctx) :
    (c.setAfterChild x).afterChild = x := by cases c; rfl

theorem pending_setAfterChild (c : Ctx) (x : Option Ctx) :
    (c.setAfterChild x).pendingDuringChild = c.pendingDuringChild := by cases c; rfl

theorem dcBefore_setAfterChild (c : Ctx) (x : Option Ctx) :
    (c.setAfterChild x).dcBeforeSlot = c.dcBeforeSlot := by cases c; rfl

theorem dcDuring_setAfterChild (c : Ctx) (x : Option Ctx) :
    (c.setAfterChild x).dcDuringSlot = c.dcDuringSlot := by cases c; rfl

theorem dcAfter_setAfterChild (c : Ctx) (x : Option Ctx) :
    (c.setAfterChild x).dcAfterSlot = c.dcAfterSlot := by cases c; rfl

theorem core_setPending (c : Ctx) (x : Option (Ctx ⊕ List Ctx)) :
    (c.setPending x).core = c.core := by cases c; rfl

theorem beforeChild_setPending (c : Ctx) (x : Option (Ctx ⊕ List Ctx)) :
    (c.setPending x).beforeChild = c.beforeChild := by cases c; rfl

theorem afterChild_setPending (c : Ctx) (x : Option (Ctx ⊕ List Ctx)) :
    (c.setPending x).afterChild = c.afterChild := by cases c; rfl

theorem pending_setPending (c : Ctx) (x : Option (Ctx ⊕ List Ctx)) :
    (c.setPending x).pendingDuringChild = x := by cases c; rfl

theorem dcBefore_setPending (c : Ctx) (x : Option (Ctx ⊕ List Ctx)) :
    (c.setPending x).dcBeforeSlot = c.dcBeforeSlot := by cases c; rfl

theorem dcDuring_setPending (c : Ctx) (x : Option (Ctx ⊕ List Ctx)) :
    (c.setPending x).dcDuringSlot = c.dcDuringSlot := by cases c; rfl

theorem dcAfter_setPending (c : Ctx) (x : Option (Ctx ⊕ List Ctx)) :
    (c.setPending x).dcAfterSlot = c.dcAfterSlot := by cases c; rfl

theorem core_setDcBefore (c : Ctx) (x : Option Ctx) :
    (c.setDcBefore x).core = c.core := by cases c; rfl

theorem beforeChild_setDcBefore (c : Ctx) (x : Option Ctx) :
    (c.setDcBefore x).beforeChild = c.beforeChild := by cases c; rfl

theorem afterChild_setDcBefore (c : Ctx) (x : Option Ctx) :
    (c.setDcBefore x).afterChild = c.afterChild := by cases c; rfl

theorem pending_setDcBefore (c : Ctx) (x : Option Ctx) :
    (c.setDcBefore x).pendingDuringChild = c.pendingDuringChild := by cases c; rfl

theorem dcBefore_setDcBefore (c : Ctx) (x : Option Ctx) :
    (c.setDcBefore x).dcBeforeSlot = x := by cases c; rfl

theorem dcDuring_setDcBefore (c : Ctx) (x : Option Ctx) :
    (c.setDcBefore x).dcDuringSlot = c.dcDuringSlot := by cases c; rfl

theorem dcAfter_setDcBefore (c : Ctx) (x : Option Ctx) :
    (c.setDcBefore x).dcAfterSlot = c.dcAfterSlot := by cases c; rfl

theorem core_setDcDuring (c : Ctx) (x : Option Ctx) :
    (c.setDcDuring x).core = c.core := by cases c; rfl

theorem beforeChild_setDcDuring (c : Ctx) (x : Option Ctx) :
    (c.setDcDuring x).beforeChild = c.beforeChild := by cases c; rfl

theorem afterChild_setDcDuring (c : Ctx) (x : Option Ctx) :
    (c.setDcDuring x).afterChild = c.afterChild := by cases c; rfl

theorem pending_setDcDuring (c : Ctx) (x : Option Ctx) :
    (c.setDcDuring x).pendingDuringChild = c.pendingDuringChild := by cases c; rfl

theorem dcBefore_setDcDuring (c : Ctx) (x : Option Ctx) :
    (c.setDcDuring x).dcBeforeSlot = c.dcBeforeSlot := by cases c; rfl

theorem dcDuring_setDcDuring (c : Ctx) (x : Option Ctx) :
    (c.setDcDuring x).dcDuringSlot = x := by cases c; rfl

theorem dcAfter_setDcDuring (c : Ctx) (x : Option Ctx) :
    (c.setDcDuring x).dcAfterSlot = c.dcAfterSlot := by cases c; rfl

theorem core_setDcAfter (c : Ctx) (x : Option Ctx) :
    (c.setDcAfter x).core = c.core := by cases c; rfl

theorem beforeChild_setDcAfter (c : Ctx) (x : Option Ctx) :
    (c.setDcAfter x).beforeChild = c.beforeChild := by cases c; rfl

theorem afterChild_setDcAfter (c : Ctx) (x : Option Ctx) :
    (c.setDcAfter x).afterChild = c.afterChild := by cases c; rfl

theorem pending_setDcAfter (c : Ctx) (x : Option Ctx) :
    (c.setDcAfter x).pendingDuringChild = c.pendingDuringChild := by cases c; rfl

theorem dcBefore_setDcAfter (c : Ctx) (x : Option Ctx) :
    (c.setDcAfter x).dcBeforeSlot = c.dcBeforeSlot := by cases c; rfl

theorem dcDuring_setDcAfter (c : Ctx) (x : Option Ctx) :
    (c.setDcAfter x).dcDuringSlot = c.dcDuringSlot := by cases c; rfl

theorem dcAfter_setDcAfter (c : Ctx) (x : Option Ctx) :
    (c.setDcAfter x).dcAfterSlot = x := by cases c; rfl

attribute [simp] core_withCore beforeChild_withCore afterChild_withCore
  pending_withCore dcBefore_withCore dcDuring_withCore dcAfter_withCore
  core_setBeforeChild beforeChild_setBeforeChild afterChild_setBeforeChild
  pending_setBeforeChild dcBefore_setBeforeChild dcDuring_setBeforeChild
  dcAfter_setBeforeChild
  core_setAfterChild beforeChild_setAfterChild afterChild_setAfterChild
  pending_setAfterChild dcBefore_setAfterChild dcDuring_setAfterChild
  dcAfter_setAfterChild
  core_setPending beforeChild_setPending afterChild_setPending
  pending_setPending dcBefore_setPending dcDuring_setPending dcAfter_setPending
  core_setDcBefore beforeChild_setDcBefore afterChild_setDcBefore
  pending_setDcBefore dcBefore_setDcBefore dcDuring_setDcBefore dcAfter_setDcBefore
  core_setDcDuring beforeChild_setDcDuring afterChild_setDcDuring
  pending_setDcDuring dcBefore_setDcDuring dcDuring_setDcDuring dcAfter_setDcDuring
  core_setDcAfter beforeChild_setDcAfter afterChild_setDcAfter
  pending_setDcAfter dcBefore_setDcAfter dcDuring_setDcAfter dcAfter_setDcAfter

/-- A re-entrant `exec` on an executing context with an empty staging
slot resolves `undefined` and leaves the context untouched (shared
helper; lines 242-272 of the source). -/
theorem execF_reentrant (fuel n r : Nat) (ctx : Ctx)
    (hid : ctx.core.execID ≠ 0) (hex : ctx.core.executing = true)
    (hp : ctx.pendingDuringChild = none) :
    execF (Nat.succ fuel) ctx n r = (ctx, .undef, []) := by
  simp [execF, hid, hex, hp]

/-- Claim C10: calling exec on a handle whose context has the executing
flag set and whose pendingDuringChild slot is empty resolves undefined
immediately and leaves the entire context (execResults, phases, children,
flags) unchanged.  The execID hypothesis reflects that real handles carry
a non-empty uuid. -/
theorem c10_reentrant_exec_noop (fuel n r : Nat) (ctx : Ctx)
    (hid : ctx.core.execID ≠ 0) (hex : ctx.core.executing = true)
    (hp : ctx.pendingDuringChild = none) :
    execF (Nat.succ fuel) ctx n r = (ctx, .undef, []) := by
  simp [execF, hid, hex, hp]

/-- Witness for C10 at a concrete mid-execution context. -/
theorem c10_witness :
    busyIdleCtx.core.execID ≠ 0 ∧ busyIdleCtx.core.executing = true ∧
    busyIdleCtx.pendingDuringChild = none ∧
    execF 3 busyIdleCtx 1 1 = (busyIdleCtx, .undef, []) :=
  ⟨by decide, by decide, rfl, c10_reentrant_exec_noop 2 1 1 busyIdleCtx (by decide) (by decide) rfl⟩

/-- Claim C9: undo on a handle whose context already has the undoing flag
set raises the 409 conflict error synchronously: the returned context is
the input context itself (so undoResults and everything else is
untouched) and no user function is invoked (empty event trace; the
modelled template has no hooks and the conflict is raised before any part
of the try block). -/
theorem c9_undo_conflict (fuel n r : Nat) (ctx : Ctx)
    (h : ctx.core.undoing = true) :
    undoF (Nat.succ fuel) ctx n r =
      (ctx, .thrown (.single (.sysError 409 ctx.core.execID)), []) := by
  simp [undoF, h]

/-- Witness for C9 at a concrete undoing context. -/
theorem c9_witness :
    undoingCtx.core.undoing = true ∧
    undoF 5 undoingCtx 1 1 = (undoingCtx, .thrown (.single (.sysError 409 8)), []) :=
  ⟨by decide, c9_undo_conflict 4 1 1 undoingCtx (by decide)⟩

/-- Claim C7: reset keeps the execID, params and the before/after child
handles (the children being recursively reset), and empties execResults,
undoResults, the attempt-local buffers and every phases flag; the
template closures survive. -/
theorem c7_reset_frame (ctx : Ctx) :
    (resetC ctx).core.execID = ctx.core.execID ∧
    (resetC ctx).core.params = ctx.core.params ∧
    (resetC ctx).core.execFunction = ctx.core.execFunction ∧
    (resetC ctx).core.undoFunction = ctx.core.undoFunction ∧
    (resetC ctx).beforeChild = ctx.beforeChild.map resetC ∧
    (resetC ctx).afterChild = ctx.afterChild.map resetC ∧
    (resetC ctx).core.execResults = [] ∧
    (resetC ctx).core.undoResults = [] ∧
    (resetC ctx).core.opResults = [] ∧
    (resetC ctx).core.opUndoResults = [] ∧
    (resetC ctx).core.phases = {} ∧
    (resetC ctx).core.executing = false ∧
    (resetC ctx).core.undoing = false := by
  cases ctx with
  | mk k b a p db dd da =>
    cases b <;> cases a <;>
      simp [resetC, Ctx.core, Ctx.beforeChild, Ctx.afterChild, Option.map]

/-- Claim C8 (code bug): with an array child and noParallel falsy, the
source evaluates `this.create(child)`, but `this` inside the arrow
function is the initial CommonJS exports object, which has no `create`
property, so the call raises a TypeError instead of wrapping the array in
a parallel composite; evaluated here at the failing input
`root.addChild([A], false)` and `root.addChild([A, B], false)`. -/
theorem c8_array_parallel_type_error :
    addChildC 10 c1Root (.many [c1A]) false false = .err .tyErr ∧
    addChildC 10 c1Root (.many [c1A, c1B]) false false = .err .tyErr :=
  ⟨rfl, rfl⟩

/-- Counterexample to claim C1 as stated: after
`root.addChild(A, true).addChild(B, true)` the user exec functions run in
the order A (execID 2), B (execID 3), root (execID 1), not B, A, root. -/
theorem c1_counterexample :
    (execF 30 c1Tree2 0 0).2.2 ≠
      [Event.execCall 3 0, Event.execCall 2 0, Event.execCall 1 0] := by
  decide

/-- Claim C1 (amended): `root.addChild(A, true)` followed by
`root.addChild(B, true)` rotates B into the root before-slot with A as
B's before-child, and a subsequent `root.exec()` invokes the user exec
functions in the order A, B, root (the exec of each node first recurses
into its own before-child, so the deepest before-child runs first). -/
theorem c1_rotation_and_exec_order :
    (c1Tree2.beforeChild.map fun c => c.core.execID) = some 3 ∧
    ((c1Tree2.beforeChild.bind Ctx.beforeChild).map fun c => c.core.execID) = some 2 ∧
    (execF 30 c1Tree2 0 0).2.2 =
      [Event.execCall 2 0, Event.execCall 3 0, Event.execCall 1 0] ∧
    (execF 30 c1Tree2 0 0).2.1 = .ok [.value 2, .value 3, .value 1] :=
  ⟨rfl, rfl, rfl, rfl⟩

/-- Inserting a single handle into a fresh empty composite always
succeeds, in either position. -/
theorem addChildC_fresh_insert (f : Nat) (c : Ctx) (flag : Bool) :
    addChildC (Nat.succ f) freshComposite (.one c) flag false =
      .ok (if flag then freshComposite.setBeforeChild (some (setParent c (some 0)))
           else freshComposite.setAfterChild (some (setParent c (some 0)))) := by
  cases flag <;> rfl

theorem pending_setDc (c : Ctx) (sl : DSlot) (x : Option Ctx) :
    (c.setDc sl x).pendingDuringChild = c.pendingDuringChild := by
  cases sl <;> simp [Ctx.setDc]

theorem core_setDc (c : Ctx) (sl : DSlot) (x : Option Ctx) :
    (c.setDc sl x).core = c.core := by
  cases sl <;> simp [Ctx.setDc]

/-- Stashing a drained child into empty during-children slots either runs
out of fuel or succeeds, touching only the selected slot. -/
theorem attachDuring_cases (fuel : Nat) (ctx pc : Ctx)
    (h1 : ctx.dcBeforeSlot = none) (h2 : ctx.dcDuringSlot = none)
    (h3 : ctx.dcAfterSlot = none) :
    (attachDuring fuel ctx pc).2 = .fuelOut ∨
      ∃ sl x, attachDuring fuel ctx pc = (ctx.setDc sl (some x), .ok) := by
  cases fuel with
  | zero =>
    left
    unfold attachDuring
    by_cases hA : ctx.core.phases.completedExecFunction
    · rw [if_pos hA, h3]; simp [addChildC]
    · rw [if_neg hA]
      by_cases hB : ctx.core.phases.completedBeforeChild
      · rw [if_pos hB, h2]; simp [addChildC]
      · rw [if_neg hB, h1]; simp [addChildC]
  | succ f =>
    right
    unfold attachDuring
    by_cases hA : ctx.core.phases.completedExecFunction
    · rw [if_pos hA, h3]
      refine ⟨.afterSlot,
        (if (!ctx.core.phases.afterChildSucceeded) then
          freshComposite.setBeforeChild (some (setParent pc (some 0)))
        else freshComposite.setAfterChild (some (setParent pc (some 0)))), ?_⟩
      simp only [Option.getD, addChildC_fresh_insert]
      cases (!ctx.core.phases.afterChildSucceeded) <;> simp [Ctx.setDc]
    · rw [if_neg hA]
      by_cases hB : ctx.core.phases.completedBeforeChild
      · rw [if_pos hB, h2]
        refine ⟨.duringSlot,
          (if (!ctx.core.phases.execFunctionSucceeded) then
            freshComposite.setBeforeChild (some (setParent pc (some 0)))
          else freshComposite.setAfterChild (some (setParent pc (some 0)))), ?_⟩
        simp only [Option.getD, addChildC_fresh_insert]
        cases (!ctx.core.phases.execFunctionSucceeded) <;> simp [Ctx.setDc]
      · rw [if_neg hB, h1]
        refine ⟨.beforeSlot,
          (if (!ctx.core.phases.beforeChildSucceeded) then
            freshComposite.setBeforeChild (some (setParent pc (some 0)))
          else freshComposite.setAfterChild (some (setParent pc (some 0)))), ?_⟩
        simp only [Option.getD, addChildC_fresh_insert]
        cases (!ctx.core.phases.beforeChildSucceeded) <;> simp [Ctx.setDc]

/-- Claim C5: while a context is executing, addChild stages the child
into pendingDuringChild (part one), merges via a further addChild when
the slot is occupied (part two), leaving the before/after slots and all
scalar fields unchanged and returning at once; and the re-entrant exec
that drains the staged child clears pendingDuringChild whether the graft
resolved or rejected, so a repeated exec resolves undefined without
re-running the graft (part three). -/
theorem c5_pending_during_child (fuel n r : Nat) :
    (∀ (ctx c : Ctx) (b np : Bool), ctx.core.executing = true →
      ctx.pendingDuringChild = none →
      addChildC (Nat.succ fuel) ctx (.one c) b np =
        .ok (ctx.setPending (some (Sum.inl c))) ∧
      (ctx.setPending (some (Sum.inl c))).beforeChild = ctx.beforeChild ∧
      (ctx.setPending (some (Sum.inl c))).afterChild = ctx.afterChild ∧
      (ctx.setPending (some (Sum.inl c))).core = ctx.core)
    ∧ (∀ (ctx c p px : Ctx) (b np : Bool), ctx.core.executing = true →
        ctx.pendingDuringChild = some (Sum.inl p) →
        addChildC fuel p (.one c) b np = .ok px →
        addChildC (Nat.succ fuel) ctx (.one c) b np =
          .ok (ctx.setPending (some (Sum.inl px))))
    ∧ (∀ (ctx pc c' : Ctx) (res : ExecRes) (ev : List Event),
        ctx.core.execID ≠ 0 → ctx.core.executing = true →
        ctx.pendingDuringChild = some (Sum.inl pc) →
        ctx.dcBeforeSlot = none → ctx.dcDuringSlot = none → ctx.dcAfterSlot = none →
        execF (Nat.succ fuel) ctx n r = (c', res, ev) → res ≠ .fuelOut →
        c'.pendingDuringChild = none ∧ c'.core.executing = true ∧
        c'.core.execID = ctx.core.execID ∧
        (∀ f2 n2 r2, execF (Nat.succ f2) c' n2 r2 = (c', .undef, []))) := by
  refine ⟨?_, ?_, ?_⟩
  · intro ctx c b np hex hp
    refine ⟨?_, by simp, by simp, by simp⟩
    simp [addChildC, hex, hp, ChildArg.asPending]
  · intro ctx c p px b np hex hp hpx
    simp [addChildC, hex, hp, hpx]
  · intro ctx pc c' res ev hid hex hp h1 h2 h3 hrun hnf
    rcases ht : execF fuel pc ctx.core.numTries ctx.core.retryInterval
      with ⟨pc', cres, cev⟩
    have hpost : c'.pendingDuringChild = none ∧ c'.core.executing = true ∧
        c'.core.execID = ctx.core.execID := by
      cases cres with
      | fuelOut =>
        simp [execF, hid, hex, hp, ht, ExecRes.resolved] at hrun
        exact absurd hrun.2.1.symm hnf
      | ok l =>
        rcases attachDuring_cases fuel
            (ctx.withCore fun k => { k with execResults := k.execResults ++ l }) pc'
            (by simp [h1]) (by simp [h2]) (by simp [h3]) with hfo | ⟨sl, x, hat⟩
        · simp [execF, hid, hex, hp, ht, ExecRes.resolved, hfo] at hrun
          exact absurd hrun.2.1.symm hnf
        · simp [execF, hid, hex, hp, ht, ExecRes.resolved, hat] at hrun
          obtain ⟨hc, _, _⟩ := hrun
          subst hc
          simp [pending_setDc, core_setDc, hex]
      | undef =>
        rcases attachDuring_cases fuel
            (ctx.withCore fun k => { k with execResults := k.execResults ++ [RVal.undef] }) pc'
            (by simp [h1]) (by simp [h2]) (by simp [h3]) with hfo | ⟨sl, x, hat⟩
        · simp [execF, hid, hex, hp, ht, ExecRes.resolved, hfo] at hrun
          exact absurd hrun.2.1.symm hnf
        · simp [execF, hid, hex, hp, ht, ExecRes.resolved, hat] at hrun
          obtain ⟨hc, _, _⟩ := hrun
          subst hc
          simp [pending_setDc, core_setDc, hex]
      | thrown terr =>
        rcases attachDuring_cases fuel ctx pc' h1 h2 h3 with hfo | ⟨sl, x, hat⟩
        · simp [execF, hid, hex, hp, ht, ExecRes.resolved, hfo] at hrun
          exact absurd hrun.2.1.symm hnf
        · simp [execF, hid, hex, hp, ht, ExecRes.resolved, hat] at hrun
          obtain ⟨hc, _, _⟩ := hrun
          subst hc
          simp [pending_setDc, core_setDc, hex]
    refine ⟨hpost.1, hpost.2.1, hpost.2.2, ?_⟩
    intro f2 n2 r2
    exact execF_reentrant f2 n2 r2 c' (by rw [hpost.2.2]; exact hid)
      hpost.2.1 hpost.1

/-- Witness for C5: staging at a concrete mid-execution context, and a
concrete drain that clears the staging slot. -/
theorem c5_witness :
    addChildC 1 busyIdleCtx (.one c1A) false false =
      .ok (busyIdleCtx.setPending (some (Sum.inl c1A))) ∧
    (execF 30 busyPendingCtx 0 0).1.pendingDuringChild = none ∧
    (execF 30 busyPendingCtx 0 0).1.core.executing = true := by
  have h1 := (c5_pending_during_child 0 0 0).1 busyIdleCtx c1A false false (by decide) rfl
  have h3 := (c5_pending_during_child 29 0 0).2.2 busyPendingCtx
      (createCtx 6 [] (some okOracle) none)
      (execF 30 busyPendingCtx 0 0).1 (execF 30 busyPendingCtx 0 0).2.1
      (execF 30 busyPendingCtx 0 0).2.2
      (by decide) (by decide) rfl rfl rfl rfl rfl
      (by rw [show (execF 30 busyPendingCtx 0 0).2.1 = ExecRes.ok [RVal.value 6] from rfl]
          simp)
  exact ⟨h1.1, h3.1, h3.2.1⟩

/-- Claim C2: undo performs the user-undo retry loop only when both
execFunctionExecuted and execFunctionSucceeded are set, undoes the
after-child only when afterChildExecuted is set, undoes the before-child
only when beforeChildExecuted is set (each skipped step leaves the
context untouched and invokes nothing), and undo routes through exactly
these steps in mirror order. -/
theorem c2_undo_phase_gating (fuel n r : Nat) (ctx : Ctx) :
    (¬(ctx.core.phases.execFunctionExecuted = true ∧
        ctx.core.phases.execFunctionSucceeded = true) →
      undoUserStep ctx n r = (ctx, .ok, []))
    ∧ (ctx.core.phases.afterChildExecuted = false →
      ∀ urecur, undoAfterChildStepG urecur ctx n r = (ctx, .ok, []))
    ∧ (ctx.core.phases.beforeChildExecuted = false →
      ∀ urecur, undoBeforeChildStepG urecur ctx n r = (ctx, .ok, []))
    ∧ undoF (Nat.succ fuel) ctx n r =
        (if ctx.core.undoing = true then
          (ctx, .thrown (.single (.sysError 409 ctx.core.execID)), [])
        else undoFinish (undoSteps (undoF fuel)
              (undoStart ctx (jsDefault n 1) (jsDefault r 1000))
              (jsDefault n 1) (jsDefault r 1000))) := by
  refine ⟨?_, ?_, ?_, rfl⟩
  · intro h
    unfold undoUserStep
    rw [if_neg h]
  · intro h urecur
    unfold undoAfterChildStepG
    rw [if_neg (by simp [h])]
  · intro h urecur
    unfold undoBeforeChildStepG
    rw [if_neg (by simp [h])]

/-- Witness for C2 at a fresh context with no phase flags set. -/
theorem c2_witness :
    undoUserStep (createCtx 1 [] none none) 1 1 = (createCtx 1 [] none none, .ok, []) ∧
    undoAfterChildStepG (undoF 3) (createCtx 1 [] none none) 1 1 =
      (createCtx 1 [] none none, .ok, []) ∧
    undoBeforeChildStepG (undoF 3) (createCtx 1 [] none none) 1 1 =
      (createCtx 1 [] none none, .ok, []) :=
  ⟨(c2_undo_phase_gating 2 1 1 (createCtx 1 [] none none)).1 (by decide),
   (c2_undo_phase_gating 2 1 1 (createCtx 1 [] none none)).2.1 (by decide) (undoF 3),
   (c2_undo_phase_gating 2 1 1 (createCtx 1 [] none none)).2.2.1 (by decide) (undoF 3)⟩

theorem countExecCalls_append (a b : List Event) :
    countExecCalls (a ++ b) = countExecCalls a + countExecCalls b := by
  simp [countExecCalls, List.filter_append]

theorem countUndoCalls_append (a b : List Event) :
    countUndoCalls (a ++ b) = countUndoCalls a + countUndoCalls b := by
  simp [countUndoCalls, List.filter_append]

/-- The undo retry loop performs at most `numTries - i` invocations of
the user undo function from iteration `i` on. -/
theorem undoTryLoop_count (g : Nat → Nat → UserOut) (n r : Nat) :
    ∀ (fl i : Nat) (ctx : Ctx),
      countUndoCalls (undoTryLoop g fl ctx n r i).2 ≤ n - i := by
  intro fl
  induction fl with
  | zero => intro i ctx; simp [undoTryLoop, countUndoCalls]
  | succ fl ih =>
    intro i ctx
    unfold undoTryLoop
    by_cases hc : i < n ∧ ctx.core.phases.undoFunctionSucceeded = false
    · rw [if_pos hc]
      have hin : i < n := hc.1
      simp only [core_withCore]
      cases hg : g ctx.core.execID i with
      | succeed v? =>
        cases v? <;>
          · simp only [countUndoCalls_append]
            calc _ ≤ 1 + (n - (i + 1)) :=
                  add_le_add (by simp [countUndoCalls]) (ih (i + 1) _)
              _ ≤ n - i := by omega
      | fail e =>
        simp only [countUndoCalls_append]
        calc _ ≤ 1 + (n - (i + 1)) :=
              add_le_add (by simp [countUndoCalls]) (ih (i + 1) _)
          _ ≤ n - i := by omega
    · rw [if_neg hc]
      simp [countUndoCalls]

/-- Once `undoFunctionSucceeded` is set the undo retry loop exits at
once, invoking nothing. -/
theorem undoTryLoop_stopped (g : Nat → Nat → UserOut) (n r : Nat)
    (fl i : Nat) (ctx : Ctx)
    (h : ctx.core.phases.undoFunctionSucceeded = true) :
    undoTryLoop g fl ctx n r i = (ctx, []) := by
  cases fl with
  | zero => rfl
  | succ fl => unfold undoTryLoop; rw [if_neg (by simp [h])]

/-- The user-undo step invokes the user undo function at most `numTries`
times. -/
theorem undoUserStep_count (ctx : Ctx) (n r : Nat) :
    countUndoCalls (undoUserStep ctx n r).2.2 ≤ n := by
  unfold undoUserStep
  split
  · split
    · simp [countUndoCalls]
    · dsimp only
      split
      · exact le_trans (undoTryLoop_count _ n r _ 0 _) (by omega)
      · exact le_trans (undoTryLoop_count _ n r _ 0 _) (by omega)
  · simp [countUndoCalls]

/-- Counterexample to claim C3 as stated: after an exec that succeeded on
its first attempt, an undo called with numTries = 2 whose user undo
function keeps failing invokes the user undo function twice, not at most
once. -/
theorem c3_counterexample :
    countUndoCalls (undoF 30 c3ExecedCtx 2 1).2.2 = 2 ∧
    ¬ countUndoCalls (undoF 30 c3ExecedCtx 2 1).2.2 ≤ 1 := by
  constructor <;> decide

theorem tryIterCtx_core_execID (c : Ctx) (i : Nat) :
    (tryIterCtx c i).core.execID = c.core.execID := by simp [tryIterCtx]

theorem tryIterCtx_core_executing (c : Ctx) (i : Nat) :
    (tryIterCtx c i).core.executing = c.core.executing := by simp [tryIterCtx]

theorem tryIterCtx_pending (c : Ctx) (i : Nat) :
    (tryIterCtx c i).pendingDuringChild = c.pendingDuringChild := by simp [tryIterCtx]

theorem tryIterCtx_succ (c : Ctx) (i : Nat) :
    (tryIterCtx c i).core.phases.execFunctionSucceeded =
      c.core.phases.execFunctionSucceeded := by simp [tryIterCtx]

attribute [simp] tryIterCtx_core_execID tryIterCtx_core_executing
  tryIterCtx_pending tryIterCtx_succ

/-- A re-entrant exec on an executing context with nothing staged either
resolves undefined or (with a falsy execID) raises bad input; in both
cases the context is untouched and no event is produced. -/
theorem execF_busy_cases (fuel n r : Nat) (ctx : Ctx)
    (hex : ctx.core.executing = true) (hp : ctx.pendingDuringChild = none) :
    execF (Nat.succ fuel) ctx n r = (ctx, .undef, []) ∨
    execF (Nat.succ fuel) ctx n r = (ctx, .thrown (.single (.sysError 400 0)), []) := by
  by_cases hid : ctx.core.execID = 0
  · right; simp [execF, hid]
  · left; exact execF_reentrant fuel n r ctx hid hex hp

/-- Once `execFunctionSucceeded` is set the exec retry loop exits at
once. -/
theorem execTryLoopG_stopped (recur : Ctx → Nat → Nat → Ctx × ExecRes × List Event)
    (fl : Nat) (f : Nat → Nat → UserOut) (ctx : Ctx) (n r i : Nat)
    (h : ctx.core.phases.execFunctionSucceeded = true) :
    (execTryLoopG recur fl f ctx n r i).1 = ctx ∧
    (execTryLoopG recur fl f ctx n r i).2.2 = [] := by
  cases fl with
  | zero => exact ⟨rfl, rfl⟩
  | succ fl =>
    unfold execTryLoopG
    rw [if_neg (by simp [h])]
    exact ⟨rfl, rfl⟩

/-- Once `execFunctionSucceeded` is set the exec retry loop contributes
no events. -/
theorem execTryLoopG_stopped_trace
    (recur : Ctx → Nat → Nat → Ctx × ExecRes × List Event)
    (fl : Nat) (f : Nat → Nat → UserOut) (ctx : Ctx) (n r i : Nat)
    (h : ctx.core.phases.execFunctionSucceeded = true) :
    (execTryLoopG recur fl f ctx n r i).2.2 = [] :=
  (execTryLoopG_stopped recur fl f ctx n r i h).2

/-- When the user exec oracle fails on every attempt before `k - 1` and
succeeds on attempt `k - 1 < numTries`, the retry loop started at
iteration `i = k - d` performs exactly `d` invocations. -/
theorem execTryLoopG_count_exact (gf n r k : Nat) (f : Nat → Nat → UserOut)
    (hkn : k ≤ n) :
    ∀ (d i fl : Nat) (ctx : Ctx),
      i + d = k → 1 ≤ d → d < fl →
      ctx.core.execID ≠ 0 →
      ctx.core.executing = true → ctx.pendingDuringChild = none →
      ctx.core.phases.execFunctionSucceeded = false →
      (∀ j, j < k - 1 → ∃ e, f ctx.core.execID j = .fail e) →
      (∃ v, f ctx.core.execID (k - 1) = .succeed v) →
      countExecCalls (execTryLoopG (execF (Nat.succ gf)) fl f ctx n r i).2.2 = d := by
  intro d
  induction d with
  | zero => intro i fl ctx _ h1 _ _ _ _ _ _ _; exact absurd h1 (by omega)
  | succ d' ih =>
    intro i fl ctx hik h1 hfl hid hex hp hsucc hfail hsucceed
    obtain ⟨fl', rfl⟩ : ∃ m, fl = Nat.succ m := ⟨fl - 1, by omega⟩
    have hin : i < n := by omega
    unfold execTryLoopG
    rw [if_pos ⟨hin, hsucc⟩]
    dsimp only
    simp only [tryIterCtx_core_execID]
    by_cases hd0 : d' = 0
    · subst hd0
      obtain ⟨v, hv⟩ := hsucceed
      rw [show k - 1 = i from by omega] at hv
      simp only [hv]
      cases v with
      | none =>
        simp only [execF_reentrant, execTryLoopG_stopped_trace, core_withCore,
          pending_withCore, tryIterCtx_core_execID, tryIterCtx_core_executing,
          tryIterCtx_pending, tryIterCtx_succ, hex, hp, hid, ne_eq, not_false_iff]
        simp [countExecCalls]
      | some vv =>
        simp only [execF_reentrant, execTryLoopG_stopped_trace, core_withCore,
          pending_withCore, tryIterCtx_core_execID, tryIterCtx_core_executing,
          tryIterCtx_pending, tryIterCtx_succ, hex, hp, hid, ne_eq, not_false_iff]
        simp [countExecCalls]
    · obtain ⟨e, he⟩ := hfail i (by omega)
      simp only [he]
      have hr := ih (i + 1) fl'
        ((tryIterCtx ctx i).withCore fun k => { k with opResults := k.opResults ++ [e] })
        (by omega) (by omega) (by omega) (by simp [hid]) (by simp [hex])
        (by simp [hp]) (by simp [hsucc]) (by simpa using hfail) (by simpa using hsucceed)
      rw [countExecCalls_append, hr]
      simp [countExecCalls]
      omega

/-- The user-exec phase invokes the oracle exactly `k` times when it
first succeeds on attempt `k - 1` with `k ≤ numTries`. -/
theorem execRetryPhaseG_count (gf n r k : Nat) (f : Nat → Nat → UserOut) (ctx : Ctx)
    (hk : 1 ≤ k) (hkn : k ≤ n)
    (hid : ctx.core.execID ≠ 0) (hex : ctx.core.executing = true)
    (hp : ctx.pendingDuringChild = none)
    (hfn : ctx.core.execFunction = some f)
    (hsucc : ctx.core.phases.execFunctionSucceeded = false)
    (hfail : ∀ j, j < k - 1 → ∃ e, f ctx.core.execID j = .fail e)
    (hsucceed : ∃ v, f ctx.core.execID (k - 1) = .succeed v) :
    countExecCalls (execRetryPhaseG (execF (Nat.succ gf)) ctx n r).2.2 = k := by
  unfold execRetryPhaseG
  rw [hfn]
  dsimp only
  have hc := execTryLoopG_count_exact gf n r k f hkn k 0 (Nat.succ n)
    (ctx.withCore fun kk => { kk with opResults := [] })
    (by omega) hk (by omega) (by simp [hid]) (by simp [hex]) (by simp [hp])
    (by simp [hsucc]) (by simpa using hfail) (by simpa using hsucceed)
  rcases hl : execTryLoopG (execF (Nat.succ gf)) (Nat.succ n) f
      (ctx.withCore fun kk => { kk with opResults := [] }) n r 0 with ⟨c1, s1, tr1⟩
  rw [hl] at hc
  dsimp only at hc ⊢
  cases s1 with
  | ok =>
    dsimp only
    split
    · exact hc
    · exact hc
  | thrown th => exact hc
  | fuelOut => exact hc

/-- Claim C3 (amended): a user exec that first succeeds on attempt `k`
with `k ≤ numTries` is invoked exactly `k` times (the retry loop stops
iterating once execFunctionSucceeded is set), and a subsequent undo
invokes the user undo function at most its own numTries times, not at all
once undoFunctionSucceeded is set. -/
theorem c3_retry_counts :
    (∀ (gf n r k : Nat) (f : Nat → Nat → UserOut) (ctx : Ctx),
      1 ≤ k → k ≤ n →
      ctx.core.execID ≠ 0 → ctx.core.executing = true →
      ctx.pendingDuringChild = none →
      ctx.core.execFunction = some f →
      ctx.core.phases.execFunctionSucceeded = false →
      (∀ j, j < k - 1 → ∃ e, f ctx.core.execID j = .fail e) →
      (∃ v, f ctx.core.execID (k - 1) = .succeed v) →
      countExecCalls (execRetryPhaseG (execF (Nat.succ gf)) ctx n r).2.2 = k)
    ∧ (∀ (ctx : Ctx) (n r : Nat), countUndoCalls (undoUserStep ctx n r).2.2 ≤ n)
    ∧ (∀ (g : Nat → Nat → UserOut) (fl : Nat) (ctx : Ctx) (n r i : Nat),
        ctx.core.phases.undoFunctionSucceeded = true →
        undoTryLoop g fl ctx n r i = (ctx, [])) :=
  ⟨fun gf n r k f ctx hk hkn hid hex hp hfn hsucc hfail hsucceed =>
    execRetryPhaseG_count gf n r k f ctx hk hkn hid hex hp hfn hsucc hfail hsucceed,
   undoUserStep_count,
   fun g fl ctx n r i h => undoTryLoop_stopped g n r fl i ctx h⟩

/-- Witness for C3: a concrete oracle failing once then succeeding is
invoked exactly twice with numTries = 3, and a concrete undo with
numTries = 2 invokes the user undo at most twice. -/
theorem c3_witness :
    countExecCalls (execRetryPhaseG (execF 3) retryMidCtx 3 1).2.2 = 2 ∧
    countUndoCalls (undoUserStep c3ExecedCtx 2 1).2.2 ≤ 2 :=
  ⟨c3_retry_counts.1 2 3 1 2 retryOracle retryMidCtx (by decide) (by decide)
      (by decide) (by decide) rfl rfl (by decide)
      (by
        intro j hj
        have hj0 : j = 0 := by omega
        subst hj0
        exact ⟨.errVal 5, rfl⟩)
      ⟨some (.value 9), rfl⟩,
   c3_retry_counts.2.1 c3ExecedCtx 2 1⟩

theorem grows_refl (l : List RVal) : Grows l l := ⟨[], by simp⟩

theorem grows_append (l t : List RVal) : Grows l (l ++ t) := ⟨t, rfl⟩

theorem Grows.trans {a b c : List RVal} (h1 : Grows a b) (h2 : Grows b c) :
    Grows a c := by
  obtain ⟨t1, rfl⟩ := h1
  obtain ⟨t2, rfl⟩ := h2
  exact ⟨t1 ++ t2, by simp⟩

theorem grows_trans2 {a b c : List RVal} (h2 : Grows b c) (h1 : Grows a b) :
    Grows a c := h1.trans h2

theorem concatJS_eq (l : List RVal) (t : Thrown) :
    concatJS l t = l ++ t.elems := by cases t <;> rfl

/-- Stashing a during-child only rewrites during-children slots: the
scalar part of the context is untouched. -/
theorem attachDuring_core (fuel : Nat) (c pc : Ctx) :
    (attachDuring fuel c pc).1.core = c.core := by
  unfold attachDuring
  by_cases hA : c.core.phases.completedExecFunction
  · rw [if_pos hA]
    dsimp only
    split <;> simp
  · rw [if_neg hA]
    by_cases hB : c.core.phases.completedBeforeChild
    · rw [if_pos hB]
      dsimp only
      split <;> simp
    · rw [if_neg hB]
      dsimp only
      split <;> simp

/-- A re-entrant exec (graft check or drain) only appends to the
execResults of its context and leaves its executing flag set. -/
theorem execF_mid_grows : ∀ (fuel n r : Nat) (ctx : Ctx),
    ctx.core.executing = true →
    Grows ctx.core.execResults (execF fuel ctx n r).1.core.execResults ∧
    (execF fuel ctx n r).1.core.executing = true := by
  intro fuel n r ctx hex
  cases fuel with
  | zero => exact ⟨grows_refl _, hex⟩
  | succ f =>
    by_cases hid : ctx.core.execID = 0
    · have h1 : (execF (Nat.succ f) ctx n r).1 = ctx := by simp [execF, hid]
      rw [h1]
      exact ⟨grows_refl _, hex⟩
    · cases hpd : ctx.pendingDuringChild with
      | none =>
        rw [execF_reentrant f n r ctx hid hex hpd]
        exact ⟨grows_refl _, hex⟩
      | some s =>
        cases s with
        | inr ls =>
          have h1 : (execF (Nat.succ f) ctx n r).1 = ctx := by
            simp [execF, hid, hex, hpd]
          rw [h1]
          exact ⟨grows_refl _, hex⟩
        | inl pc =>
          rcases ht : execF f pc ctx.core.numTries ctx.core.retryInterval
            with ⟨pc', cres, cev⟩
          cases cres with
          | fuelOut =>
            have h1 : (execF (Nat.succ f) ctx n r).1 = ctx := by
              simp [execF, hid, hex, hpd, ht, ExecRes.resolved]
            rw [h1]
            exact ⟨grows_refl _, hex⟩
          | ok l =>
            rcases ha : attachDuring f
                (ctx.withCore fun k => { k with execResults := k.execResults ++ l }) pc'
              with ⟨ac, ast⟩
            have hcore := attachDuring_core f
              (ctx.withCore fun k => { k with execResults := k.execResults ++ l }) pc'
            rw [ha] at hcore
            cases ast with
            | ok =>
              have h1 : (execF (Nat.succ f) ctx n r).1 = ac.setPending none := by
                simp [execF, hid, hex, hpd, ht, ExecRes.resolved, ha]
              rw [h1]
              exact ⟨by simp only [core_setPending, hcore, core_withCore]; exact grows_append _ _,
                by simp [hcore, hex]⟩
            | thrown t2 =>
              have h1 : (execF (Nat.succ f) ctx n r).1 = ac := by
                simp [execF, hid, hex, hpd, ht, ExecRes.resolved, ha]
              rw [h1]
              exact ⟨by simp only [hcore, core_withCore]; exact grows_append _ _,
                by simp [hcore, hex]⟩
            | fuelOut =>
              have h1 : (execF (Nat.succ f) ctx n r).1 = ac := by
                simp [execF, hid, hex, hpd, ht, ExecRes.resolved, ha]
              rw [h1]
              exact ⟨by simp only [hcore, core_withCore]; exact grows_append _ _,
                by simp [hcore, hex]⟩
          | undef =>
            rcases ha : attachDuring f
                (ctx.withCore fun k => { k with execResults := k.execResults ++ [RVal.undef] }) pc'
              with ⟨ac, ast⟩
            have hcore := attachDuring_core f
              (ctx.withCore fun k => { k with execResults := k.execResults ++ [RVal.undef] }) pc'
            rw [ha] at hcore
            cases ast with
            | ok =>
              have h1 : (execF (Nat.succ f) ctx n r).1 = ac.setPending none := by
                simp [execF, hid, hex, hpd, ht, ExecRes.resolved, ha]
              rw [h1]
              exact ⟨by simp only [core_setPending, hcore, core_withCore]; exact grows_append _ _,
                by simp [hcore, hex]⟩
            | thrown t2 =>
              have h1 : (execF (Nat.succ f) ctx n r).1 = ac := by
                simp [execF, hid, hex, hpd, ht, ExecRes.resolved, ha]
              rw [h1]
              exact ⟨by simp only [hcore, core_withCore]; exact grows_append _ _,
                by simp [hcore, hex]⟩
            | fuelOut =>
              have h1 : (execF (Nat.succ f) ctx n r).1 = ac := by
                simp [execF, hid, hex, hpd, ht, ExecRes.resolved, ha]
              rw [h1]
              exact ⟨by simp only [hcore, core_withCore]; exact grows_append _ _,
                by simp [hcore, hex]⟩
          | thrown terr =>
            rcases ha : attachDuring f ctx pc' with ⟨ac, ast⟩
            have hcore := attachDuring_core f ctx pc'
            rw [ha] at hcore
            cases ast with
            | ok =>
              have h1 : (execF (Nat.succ f) ctx n r).1 = ac.setPending none := by
                simp [execF, hid, hex, hpd, ht, ExecRes.resolved, ha]
              rw [h1]
              exact ⟨by simp only [core_setPending, hcore]; exact grows_refl _,
                by simp [hcore, hex]⟩
            | thrown t2 =>
              have h1 : (execF (Nat.succ f) ctx n r).1 = ac := by
                simp [execF, hid, hex, hpd, ht, ExecRes.resolved, ha]
              rw [h1]
              exact ⟨by simp only [hcore]; exact grows_refl _, by simp [hcore, hex]⟩
            | fuelOut =>
              have h1 : (execF (Nat.succ f) ctx n r).1 = ac := by
                simp [execF, hid, hex, hpd, ht, ExecRes.resolved, ha]
              rw [h1]
              exact ⟨by simp only [hcore]; exact grows_refl _, by simp [hcore, hex]⟩

theorem tryIterCtx_core_execResults (c : Ctx) (i : Nat) :
    (tryIterCtx c i).core.execResults = c.core.execResults := by simp [tryIterCtx]

attribute [simp] tryIterCtx_core_execResults

/-- The before-child phase only appends to execResults and keeps the
executing flag, provided the re-entrant exec it delegates to does. -/
theorem execBeforePhaseG_grows
    (recur : Ctx → Nat → Nat → Ctx × ExecRes × List Event)
    (hrec : ∀ c n2 r2, c.core.executing = true →
      Grows c.core.execResults (recur c n2 r2).1.core.execResults ∧
      (recur c n2 r2).1.core.executing = true)
    (ctx : Ctx) (n r : Nat) (hex : ctx.core.executing = true) :
    Grows ctx.core.execResults (execBeforePhaseG recur ctx n r).1.core.execResults ∧
    (execBeforePhaseG recur ctx n r).1.core.executing = true := by
  unfold execBeforePhaseG
  cases hbc : ctx.beforeChild with
  | none =>
    dsimp only
    exact ⟨by simp only [core_withCore]; exact grows_refl _, by simp [hex]⟩
  | some bc =>
    dsimp only
    rcases htr : recur bc n r with ⟨bc', bres, bev⟩
    dsimp only
    cases bres with
    | thrown th =>
      dsimp only [ExecRes.resolved]
      exact ⟨by simp only [core_setBeforeChild, core_withCore]; exact grows_refl _,
        by simp [hex]⟩
    | fuelOut =>
      dsimp only [ExecRes.resolved]
      exact ⟨by simp only [core_setBeforeChild, core_withCore]; exact grows_refl _,
        by simp [hex]⟩
    | ok l =>
      dsimp only [ExecRes.resolved]
      split
      · exact ⟨grows_trans2 ((hrec _ 0 0 (by simp [hex])).1)
            (by simp only [core_withCore, core_setBeforeChild]; exact grows_append _ _),
          (hrec _ 0 0 (by simp [hex])).2⟩
      · exact ⟨grows_trans2 ((hrec _ 0 0 (by simp [hex])).1)
            (by simp only [core_withCore, core_setBeforeChild]; exact grows_append _ _),
          (hrec _ 0 0 (by simp [hex])).2⟩
      · refine ⟨?_, by simp only [core_withCore]; exact (hrec _ 0 0 (by simp [hex])).2⟩
        simp only [core_withCore]
        exact grows_trans2 ((hrec _ 0 0 (by simp [hex])).1)
          (by simp only [core_withCore, core_setBeforeChild]; exact grows_append _ _)
    | undef =>
      dsimp only [ExecRes.resolved]
      split
      · exact ⟨grows_trans2 ((hrec _ 0 0 (by simp [hex])).1)
            (by simp only [core_withCore, core_setBeforeChild]; exact grows_append _ _),
          (hrec _ 0 0 (by simp [hex])).2⟩
      · exact ⟨grows_trans2 ((hrec _ 0 0 (by simp [hex])).1)
            (by simp only [core_withCore, core_setBeforeChild]; exact grows_append _ _),
          (hrec _ 0 0 (by simp [hex])).2⟩
      · refine ⟨?_, by simp only [core_withCore]; exact (hrec _ 0 0 (by simp [hex])).2⟩
        simp only [core_withCore]
        exact grows_trans2 ((hrec _ 0 0 (by simp [hex])).1)
          (by simp only [core_withCore, core_setBeforeChild]; exact grows_append _ _)

/-- The after-child phase only appends to execResults and keeps the
executing flag. -/
theorem execAfterPhaseG_grows
    (recur : Ctx → Nat → Nat → Ctx × ExecRes × List Event)
    (ctx : Ctx) (n r : Nat) (hex : ctx.core.executing = true) :
    Grows ctx.core.execResults (execAfterPhaseG recur ctx n r).1.core.execResults ∧
    (execAfterPhaseG recur ctx n r).1.core.executing = true := by
  unfold execAfterPhaseG
  cases hac : ctx.afterChild with
  | none =>
    dsimp only
    exact ⟨by simp only [core_withCore]; exact grows_refl _, by simp [hex]⟩
  | some ac =>
    dsimp only
    rcases htr : recur ac n r with ⟨ac', ares, aev⟩
    dsimp only
    cases ares with
    | thrown th =>
      dsimp only [ExecRes.resolved]
      exact ⟨by simp only [core_setAfterChild, core_withCore]; exact grows_refl _,
        by simp [hex]⟩
    | fuelOut =>
      dsimp only [ExecRes.resolved]
      exact ⟨by simp only [core_setAfterChild, core_withCore]; exact grows_refl _,
        by simp [hex]⟩
    | ok l =>
      dsimp only [ExecRes.resolved]
      exact ⟨by simp only [core_withCore, core_setAfterChild]; exact grows_append _ _,
        by simp [hex]⟩
    | undef =>
      dsimp only [ExecRes.resolved]
      exact ⟨by simp only [core_withCore, core_setAfterChild]; exact grows_append _ _,
        by simp [hex]⟩

/-- The exec retry loop never removes from execResults and keeps the
executing flag, provided the re-entrant graft check does. -/
theorem execTryLoopG_grows
    (recur : Ctx → Nat → Nat → Ctx × ExecRes × List Event)
    (hrec : ∀ c n2 r2, c.core.executing = true →
      Grows c.core.execResults (recur c n2 r2).1.core.execResults ∧
      (recur c n2 r2).1.core.executing = true)
    (f : Nat → Nat → UserOut) (n r : Nat) :
    ∀ (fl i : Nat) (ctx : Ctx), ctx.core.executing = true →
      Grows ctx.core.execResults (execTryLoopG recur fl f ctx n r i).1.core.execResults ∧
      (execTryLoopG recur fl f ctx n r i).1.core.executing = true := by
  intro fl
  induction fl with
  | zero => exact fun i ctx h => ⟨grows_refl _, h⟩
  | succ fl ih =>
    intro i ctx hex
    unfold execTryLoopG
    by_cases hc : i < n ∧ ctx.core.phases.execFunctionSucceeded = false
    · rw [if_pos hc]
      dsimp only
      simp only [tryIterCtx_core_execID]
      cases hg : f ctx.core.execID i with
      | fail e =>
        have hih := ih (i + 1)
          ((tryIterCtx ctx i).withCore fun k => { k with opResults := k.opResults ++ [e] })
          (by simp [hex])
        refine ⟨?_, hih.2⟩
        have h3 : ((tryIterCtx ctx i).withCore fun k =>
            { k with opResults := k.opResults ++ [e] }).core.execResults =
            ctx.core.execResults := by simp
        rw [← h3]
        exact hih.1
      | succeed v? =>
        have hbase : ∀ (c4 : Ctx), c4.core.executing = true →
            c4.core.execResults = ctx.core.execResults →
            Grows ctx.core.execResults
              ((match (recur c4 0 0).2.1 with
                | ExecRes.fuelOut => ((recur c4 0 0).1, StepRes.fuelOut,
                    [Event.execCall ctx.core.execID i] ++ (recur c4 0 0).2.2)
                | ExecRes.thrown th =>
                  (let ctx5 := (recur c4 0 0).1.withCore fun k =>
                      { k with opResults := k.opResults ++ [th.toPush] }
                   let rest := execTryLoopG recur fl f ctx5 n r (i + 1)
                   (rest.1, rest.2.1,
                     [Event.execCall ctx.core.execID i] ++ (recur c4 0 0).2.2 ++ rest.2.2))
                | _ =>
                  (let rest := execTryLoopG recur fl f (recur c4 0 0).1 n r (i + 1)
                   (rest.1, rest.2.1,
                     [Event.execCall ctx.core.execID i] ++ (recur c4 0 0).2.2 ++ rest.2.2))
                ).1.core.execResults) ∧
              ((match (recur c4 0 0).2.1 with
                | ExecRes.fuelOut => ((recur c4 0 0).1, StepRes.fuelOut,
                    [Event.execCall ctx.core.execID i] ++ (recur c4 0 0).2.2)
                | ExecRes.thrown th =>
                  (let ctx5 := (recur c4 0 0).1.withCore fun k =>
                      { k with opResults := k.opResults ++ [th.toPush] }
                   let rest := execTryLoopG recur fl f ctx5 n r (i + 1)
                   (rest.1, rest.2.1,
                     [Event.execCall ctx.core.execID i] ++ (recur c4 0 0).2.2 ++ rest.2.2))
                | _ =>
                  (let rest := execTryLoopG recur fl f (recur c4 0 0).1 n r (i + 1)
                   (rest.1, rest.2.1,
                     [Event.execCall ctx.core.execID i] ++ (recur c4 0 0).2.2 ++ rest.2.2))
                ).1.core.executing = true) := by
          intro c4 hc4x hc4r
          obtain ⟨hg1, hg2⟩ := hrec c4 0 0 hc4x
          rw [hc4r] at hg1
          cases hgr : (recur c4 0 0).2.1 with
          | fuelOut => exact ⟨hg1, hg2⟩
          | thrown th =>
            dsimp only
            have hih := ih (i + 1)
              ((recur c4 0 0).1.withCore fun k =>
                { k with opResults := k.opResults ++ [th.toPush] })
              (by simp [hg2])
            refine ⟨Grows.trans hg1 ?_, hih.2⟩
            have h5 : ((recur c4 0 0).1.withCore fun k =>
                { k with opResults := k.opResults ++ [th.toPush] }).core.execResults =
                (recur c4 0 0).1.core.execResults := by simp
            rw [← h5]
            exact hih.1
          | ok l =>
            dsimp only
            have hih := ih (i + 1) (recur c4 0 0).1 hg2
            exact ⟨Grows.trans hg1 hih.1, hih.2⟩
          | undef =>
            dsimp only
            have hih := ih (i + 1) (recur c4 0 0).1 hg2
            exact ⟨Grows.trans hg1 hih.1, hih.2⟩
        cases v? with
        | none => exact hbase _ (by simp [hex]) (by simp)
        | some vv => exact hbase _ (by simp [hex]) (by simp)
    · rw [if_neg hc]
      exact ⟨grows_refl _, hex⟩

/-- The user-exec phase only appends to execResults and keeps the
executing flag, provided the re-entrant graft check does. -/
theorem execRetryPhaseG_grows
    (recur : Ctx → Nat → Nat → Ctx × ExecRes × List Event)
    (hrec : ∀ c n2 r2, c.core.executing = true →
      Grows c.core.execResults (recur c n2 r2).1.core.execResults ∧
      (recur c n2 r2).1.core.executing = true)
    (ctx : Ctx) (n r : Nat) (hex : ctx.core.executing = true) :
    Grows ctx.core.execResults (execRetryPhaseG recur ctx n r).1.core.execResults ∧
    (execRetryPhaseG recur ctx n r).1.core.executing = true := by
  unfold execRetryPhaseG
  cases hfn : ctx.core.execFunction with
  | none =>
    dsimp only
    exact ⟨by simp only [core_withCore]; exact grows_refl _, by simp [hex]⟩
  | some f =>
    dsimp only
    have hlp := execTryLoopG_grows recur hrec f n r (Nat.succ n) 0
      (ctx.withCore fun k => { k with opResults := [] }) (by simp [hex])
    have h0 : ((ctx.withCore fun k => { k with opResults := [] }).core.execResults) =
        ctx.core.execResults := by simp
    rw [h0] at hlp
    rcases hl : execTryLoopG recur (Nat.succ n) f
        (ctx.withCore fun k => { k with opResults := [] }) n r 0 with ⟨c1, s1, tr1⟩
    rw [hl] at hlp
    dsimp only at hlp
    cases s1 with
    | ok =>
      dsimp only
      split
      · exact ⟨Grows.trans hlp.1 (by simp only [core_withCore]; exact grows_append _ _),
          by simp [hlp.2]⟩
      · exact hlp
    | thrown th => exact hlp
    | fuelOut => exact hlp

/-- Claim C4: a failing top-level exec raises exactly the accumulated
execResults of the final context (part one); the catch step appends the
caught error to execResults and raises that same accumulated list (part
two); and execResults is append-only throughout one execution: re-entrant
execs on the executing context and each phase of the try block only ever
append to it (part three).  The execID hypothesis reflects that real
handles carry a non-empty uuid. -/
theorem c4_failure_raises_accumulated (fuel n r : Nat) (ctx : Ctx) :
    (ctx.core.executing = false → ctx.core.execID ≠ 0 →
      ∀ (c' : Ctx) (t : Thrown) (ev : List Event),
        execF fuel ctx n r = (c', .thrown t, ev) → t = .arr c'.core.execResults)
    ∧ (∀ t, (execCatch ctx t).1.core.execResults = ctx.core.execResults ++ t.elems ∧
        (execCatch ctx t).2 = .thrown (.arr (execCatch ctx t).1.core.execResults))
    ∧ (ctx.core.executing = true →
        Grows ctx.core.execResults (execF fuel ctx n r).1.core.execResults ∧
        Grows ctx.core.execResults (execBeforePhaseG (execF fuel) ctx n r).1.core.execResults ∧
        Grows ctx.core.execResults (execRetryPhaseG (execF fuel) ctx n r).1.core.execResults ∧
        Grows ctx.core.execResults (execAfterPhaseG (execF fuel) ctx n r).1.core.execResults) := by
  refine ⟨?_, ?_, ?_⟩
  · cases fuel with
    | zero =>
      intro _ _ c' t ev hrun
      simp [execF] at hrun
    | succ f =>
      intro hexF hid c' t ev hrun
      simp only [execF] at hrun
      rw [if_neg hid] at hrun
      rw [if_neg (by simp [hexF])] at hrun
      split at hrun
      · simp at hrun
      · simp only [execCatch, Prod.mk.injEq, ExecRes.thrown.injEq] at hrun
        obtain ⟨h1, h2, h3⟩ := hrun
        rw [← h1]
        exact h2.symm
      · split at hrun
        · simp at hrun
        · simp only [execCatch, Prod.mk.injEq, ExecRes.thrown.injEq] at hrun
          obtain ⟨h1, h2, h3⟩ := hrun
          rw [← h1]
          exact h2.symm
        · split at hrun
          · simp at hrun
          · simp only [execCatch, Prod.mk.injEq, ExecRes.thrown.injEq] at hrun
            obtain ⟨h1, h2, h3⟩ := hrun
            rw [← h1]
            exact h2.symm
          · simp at hrun
  · intro t
    constructor
    · simp [execCatch, concatJS_eq]
    · simp [execCatch]
  · intro hex
    have hrec : ∀ c n2 r2, c.core.executing = true →
        Grows c.core.execResults (execF fuel c n2 r2).1.core.execResults ∧
        (execF fuel c n2 r2).1.core.executing = true :=
      fun c n2 r2 h => execF_mid_grows fuel n2 r2 c h
    exact ⟨(execF_mid_grows fuel n r ctx hex).1,
      (execBeforePhaseG_grows (execF fuel) hrec ctx n r hex).1,
      (execRetryPhaseG_grows (execF fuel) hrec ctx n r hex).1,
      (execAfterPhaseG_grows (execF fuel) ctx n r hex).1⟩

/-- Witness for C4: a concrete exec whose user function fails twice
raises exactly its accumulated execResults, and a concrete re-entrant
exec only appends. -/
theorem c4_witness :
    (execF 30 failExecCtx 2 1).2.1 =
      .thrown (.arr (execF 30 failExecCtx 2 1).1.core.execResults) ∧
    Grows busyIdleCtx.core.execResults (execF 5 busyIdleCtx 1 1).1.core.execResults := by
  constructor
  · have h := (c4_failure_raises_accumulated 30 2 1 failExecCtx).1 (by decide) (by decide)
      (execF 30 failExecCtx 2 1).1 (Thrown.arr [RVal.errVal 4, RVal.errVal 4])
      (execF 30 failExecCtx 2 1).2.2 rfl
    rw [← h]
    rfl
  · exact ((c4_failure_raises_accumulated 5 1 1 busyIdleCtx).2.2 (by decide)).1

theorem quietOpt_none : quietOpt none = true := rfl

theorem quietOpt_some (c : Ctx) : quietOpt (some c) = Quiet c := rfl

theorem quiet_eq (c : Ctx) :
    Quiet c = (!c.core.executing && !c.core.undoing && c.pendingDuringChild.isNone
      && quietOpt c.beforeChild && quietOpt c.afterChild && quietOpt c.dcBeforeSlot
      && quietOpt c.dcDuringSlot && quietOpt c.dcAfterSlot) := by
  cases c with
  | mk k b a p db dd da =>
    cases b <;> cases a <;> cases db <;> cases dd <;> cases da <;>
      simp [Quiet, quietOpt, Ctx.core, Ctx.beforeChild, Ctx.afterChild,
        Ctx.pendingDuringChild, Ctx.dcBeforeSlot, Ctx.dcDuringSlot, Ctx.dcAfterSlot]

theorem mid_eq (c : Ctx) :
    Mid c = (c.core.executing && !c.core.undoing && c.pendingDuringChild.isNone
      && quietOpt c.beforeChild && quietOpt c.afterChild && quietOpt c.dcBeforeSlot
      && quietOpt c.dcDuringSlot && quietOpt c.dcAfterSlot) := by
  cases c with
  | mk k b a p db dd da =>
    cases b <;> cases a <;> cases db <;> cases dd <;> cases da <;>
      simp [Mid, quietOpt, Ctx.core, Ctx.beforeChild, Ctx.afterChild,
        Ctx.pendingDuringChild, Ctx.dcBeforeSlot, Ctx.dcDuringSlot, Ctx.dcAfterSlot]

theorem midU_eq (c : Ctx) :
    MidU c = (!c.core.executing && c.pendingDuringChild.isNone
      && quietOpt c.beforeChild && quietOpt c.afterChild && quietOpt c.dcBeforeSlot
      && quietOpt c.dcDuringSlot && quietOpt c.dcAfterSlot) := by
  cases c with
  | mk k b a p db dd da =>
    cases b <;> cases a <;> cases db <;> cases dd <;> cases da <;>
      simp [MidU, quietOpt, Ctx.core, Ctx.beforeChild, Ctx.afterChild,
        Ctx.pendingDuringChild, Ctx.dcBeforeSlot, Ctx.dcDuringSlot, Ctx.dcAfterSlot]

theorem quiet_parts (c : Ctx) (h : Quiet c = true) :
    c.core.executing = false ∧ c.core.undoing = false ∧
    c.pendingDuringChild = none ∧
    quietOpt c.beforeChild = true ∧ quietOpt c.afterChild = true ∧
    quietOpt c.dcBeforeSlot = true ∧ quietOpt c.dcDuringSlot = true ∧
    quietOpt c.dcAfterSlot = true := by
  rw [quiet_eq] at h
  simp only [Bool.and_eq_true, Bool.not_eq_true', Option.isNone_iff_eq_none] at h
  tauto

theorem mid_parts (c : Ctx) (h : Mid c = true) :
    c.core.executing = true ∧ c.core.undoing = false ∧
    c.pendingDuringChild = none ∧
    quietOpt c.beforeChild = true ∧ quietOpt c.afterChild = true ∧
    quietOpt c.dcBeforeSlot = true ∧ quietOpt c.dcDuringSlot = true ∧
    quietOpt c.dcAfterSlot = true := by
  rw [mid_eq] at h
  simp only [Bool.and_eq_true, Bool.not_eq_true', Option.isNone_iff_eq_none] at h
  tauto

theorem midU_parts (c : Ctx) (h : MidU c = true) :
    c.core.executing = false ∧ c.pendingDuringChild = none ∧
    quietOpt c.beforeChild = true ∧ quietOpt c.afterChild = true ∧
    quietOpt c.dcBeforeSlot = true ∧ quietOpt c.dcDuringSlot = true ∧
    quietOpt c.dcAfterSlot = true := by
  rw [midU_eq] at h
  simp only [Bool.and_eq_true, Bool.not_eq_true', Option.isNone_iff_eq_none] at h
  tauto

theorem quiet_mk (c : Ctx)
    (h1 : c.core.executing = false) (h2 : c.core.undoing = false)
    (h3 : c.pendingDuringChild = none)
    (h4 : quietOpt c.beforeChild = true) (h5 : quietOpt c.afterChild = true)
    (h6 : quietOpt c.dcBeforeSlot = true) (h7 : quietOpt c.dcDuringSlot = true)
    (h8 : quietOpt c.dcAfterSlot = true) : Quiet c = true := by
  rw [quiet_eq]
  simp [h1, h2, h3, h4, h5, h6, h7, h8]

theorem mid_mk (c : Ctx)
    (h1 : c.core.executing = true) (h2 : c.core.undoing = false)
    (h3 : c.pendingDuringChild = none)
    (h4 : quietOpt c.beforeChild = true) (h5 : quietOpt c.afterChild = true)
    (h6 : quietOpt c.dcBeforeSlot = true) (h7 : quietOpt c.dcDuringSlot = true)
    (h8 : quietOpt c.dcAfterSlot = true) : Mid c = true := by
  rw [mid_eq]
  simp [h1, h2, h3, h4, h5, h6, h7, h8]

theorem midU_mk (c : Ctx)
    (h1 : c.core.executing = false) (h3 : c.pendingDuringChild = none)
    (h4 : quietOpt c.beforeChild = true) (h5 : quietOpt c.afterChild = true)
    (h6 : quietOpt c.dcBeforeSlot = true) (h7 : quietOpt c.dcDuringSlot = true)
    (h8 : quietOpt c.dcAfterSlot = true) : MidU c = true := by
  rw [midU_eq]
  simp [h1, h3, h4, h5, h6, h7, h8]

/-- Reset always produces a quiet context. -/
theorem quiet_reset : ∀ c : Ctx, Quiet (resetC c) = true
  | .mk k b a p db dd da => by
    cases b with
    | none =>
      cases a with
      | none => simp [resetC, Quiet]
      | some x => simp [resetC, Quiet, quiet_reset x]
    | some y =>
      cases a with
      | none => simp [resetC, Quiet, quiet_reset y]
      | some x => simp [resetC, Quiet, quiet_reset y, quiet_reset x]

/-- Any re-entrant exec on an executing context with nothing staged
returns the context unchanged. -/
theorem execF_busy_any (fuel n r : Nat) (c : Ctx)
    (hex : c.core.executing = true) (hp : c.pendingDuringChild = none) :
    (execF fuel c n r).1 = c := by
  cases fuel with
  | zero => rfl
  | succ f =>
    by_cases hid : c.core.execID = 0
    · simp [execF, hid]
    · rw [execF_reentrant f n r c hid hex hp]

theorem quietOpt_some_elim {o : Option Ctx} {x : Ctx}
    (h : quietOpt o = true) (ho : o = some x) : Quiet x = true := by
  subst ho
  simpa [quietOpt] using h

theorem mid_withCore (c : Ctx) (f : CtxCore → CtxCore)
    (hfx : (f c.core).executing = c.core.executing)
    (hfu : (f c.core).undoing = c.core.undoing)
    (h : Mid c = true) : Mid (c.withCore f) = true := by
  obtain ⟨hex, hun, hp, hqb, hqa, hqdb, hqdd, hqda⟩ := mid_parts c h
  exact mid_mk _ (by simp [hfx, hex]) (by simp [hfu, hun]) (by simp [hp])
    (by simp only [beforeChild_withCore]; exact hqb)
    (by simp only [afterChild_withCore]; exact hqa)
    (by simp only [dcBefore_withCore]; exact hqdb)
    (by simp only [dcDuring_withCore]; exact hqdd)
    (by simp only [dcAfter_withCore]; exact hqda)

theorem midU_withCore (c : Ctx) (f : CtxCore → CtxCore)
    (hfx : (f c.core).executing = c.core.executing)
    (h : MidU c = true) : MidU (c.withCore f) = true := by
  obtain ⟨hex, hp, hqb, hqa, hqdb, hqdd, hqda⟩ := midU_parts c h
  exact midU_mk _ (by simp [hfx, hex]) (by simp [hp])
    (by simp only [beforeChild_withCore]; exact hqb)
    (by simp only [afterChild_withCore]; exact hqa)
    (by simp only [dcBefore_withCore]; exact hqdb)
    (by simp only [dcDuring_withCore]; exact hqdd)
    (by simp only [dcAfter_withCore]; exact hqda)

theorem quiet_withCore (c : Ctx) (f : CtxCore → CtxCore)
    (hfx : (f c.core).executing = c.core.executing)
    (hfu : (f c.core).undoing = c.core.undoing)
    (h : Quiet c = true) : Quiet (c.withCore f) = true := by
  obtain ⟨hex, hun, hp, hqb, hqa, hqdb, hqdd, hqda⟩ := quiet_parts c h
  exact quiet_mk _ (by simp [hfx, hex]) (by simp [hfu, hun]) (by simp [hp])
    (by simp only [beforeChild_withCore]; exact hqb)
    (by simp only [afterChild_withCore]; exact hqa)
    (by simp only [dcBefore_withCore]; exact hqdb)
    (by simp only [dcDuring_withCore]; exact hqdd)
    (by simp only [dcAfter_withCore]; exact hqda)

theorem mid_setBeforeChild (c x : Ctx) (h : Mid c = true) (hx : Quiet x = true) :
    Mid (c.setBeforeChild (some x)) = true := by
  obtain ⟨hex, hun, hp, hqb, hqa, hqdb, hqdd, hqda⟩ := mid_parts c h
  exact mid_mk _ (by simp [hex]) (by simp [hun]) (by simp [hp])
    (by simp [quietOpt, hx]) (by simp only [afterChild_setBeforeChild]; exact hqa)
    (by simp only [dcBefore_setBeforeChild]; exact hqdb)
    (by simp only [dcDuring_setBeforeChild]; exact hqdd)
    (by simp only [dcAfter_setBeforeChild]; exact hqda)

theorem mid_setAfterChild (c x : Ctx) (h : Mid c = true) (hx : Quiet x = true) :
    Mid (c.setAfterChild (some x)) = true := by
  obtain ⟨hex, hun, hp, hqb, hqa, hqdb, hqdd, hqda⟩ := mid_parts c h
  exact mid_mk _ (by simp [hex]) (by simp [hun]) (by simp [hp])
    (by simp only [beforeChild_setAfterChild]; exact hqb)
    (by simp [quietOpt, hx])
    (by simp only [dcBefore_setAfterChild]; exact hqdb)
    (by simp only [dcDuring_setAfterChild]; exact hqdd)
    (by simp only [dcAfter_setAfterChild]; exact hqda)

theorem midU_setBeforeChild (c x : Ctx) (h : MidU c = true) (hx : Quiet x = true) :
    MidU (c.setBeforeChild (some x)) = true := by
  obtain ⟨hex, hp, hqb, hqa, hqdb, hqdd, hqda⟩ := midU_parts c h
  exact midU_mk _ (by simp [hex]) (by simp [hp])
    (by simp [quietOpt, hx]) (by simp only [afterChild_setBeforeChild]; exact hqa)
    (by simp only [dcBefore_setBeforeChild]; exact hqdb)
    (by simp only [dcDuring_setBeforeChild]; exact hqdd)
    (by simp only [dcAfter_setBeforeChild]; exact hqda)

theorem midU_setAfterChild (c x : Ctx) (h : MidU c = true) (hx : Quiet x = true) :
    MidU (c.setAfterChild (some x)) = true := by
  obtain ⟨hex, hp, hqb, hqa, hqdb, hqdd, hqda⟩ := midU_parts c h
  exact midU_mk _ (by simp [hex]) (by simp [hp])
    (by simp only [beforeChild_setAfterChild]; exact hqb)
    (by simp [quietOpt, hx])
    (by simp only [dcBefore_setAfterChild]; exact hqdb)
    (by simp only [dcDuring_setAfterChild]; exact hqdd)
    (by simp only [dcAfter_setAfterChild]; exact hqda)

theorem quiet_setBeforeChild (c x : Ctx) (h : Quiet c = true) (hx : Quiet x = true) :
    Quiet (c.setBeforeChild (some x)) = true := by
  obtain ⟨hex, hun, hp, hqb, hqa, hqdb, hqdd, hqda⟩ := quiet_parts c h
  exact quiet_mk _ (by simp [hex]) (by simp [hun]) (by simp [hp])
    (by simp [quietOpt, hx]) (by simp only [afterChild_setBeforeChild]; exact hqa)
    (by simp only [dcBefore_setBeforeChild]; exact hqdb)
    (by simp only [dcDuring_setBeforeChild]; exact hqdd)
    (by simp only [dcAfter_setBeforeChild]; exact hqda)

theorem quiet_setAfterChild (c x : Ctx) (h : Quiet c = true) (hx : Quiet x = true) :
    Quiet (c.setAfterChild (some x)) = true := by
  obtain ⟨hex, hun, hp, hqb, hqa, hqdb, hqdd, hqda⟩ := quiet_parts c h
  exact quiet_mk _ (by simp [hex]) (by simp [hun]) (by simp [hp])
    (by simp only [beforeChild_setAfterChild]; exact hqb)
    (by simp [quietOpt, hx])
    (by simp only [dcBefore_setAfterChild]; exact hqdb)
    (by simp only [dcDuring_setAfterChild]; exact hqdd)
    (by simp only [dcAfter_setAfterChild]; exact hqda)

theorem midU_setDc (c : Ctx) (sl : DSlot) (x : Ctx)
    (h : MidU c = true) (hx : Quiet x = true) :
    MidU (c.setDc sl (some x)) = true := by
  obtain ⟨hex, hp, hqb, hqa, hqdb, hqdd, hqda⟩ := midU_parts c h
  have hqx : quietOpt (some x) = true := by simpa [quietOpt] using hx
  cases sl with
  | beforeSlot =>
    exact midU_mk _ (by simp [Ctx.setDc, hex]) (by simp [Ctx.setDc, hp])
      (by simp only [Ctx.setDc, beforeChild_setDcBefore]; exact hqb)
      (by simp only [Ctx.setDc, afterChild_setDcBefore]; exact hqa)
      (by simp only [Ctx.setDc, dcBefore_setDcBefore]; exact hqx)
      (by simp only [Ctx.setDc, dcDuring_setDcBefore]; exact hqdd)
      (by simp only [Ctx.setDc, dcAfter_setDcBefore]; exact hqda)
  | duringSlot =>
    exact midU_mk _ (by simp [Ctx.setDc, hex]) (by simp [Ctx.setDc, hp])
      (by simp only [Ctx.setDc, beforeChild_setDcDuring]; exact hqb)
      (by simp only [Ctx.setDc, afterChild_setDcDuring]; exact hqa)
      (by simp only [Ctx.setDc, dcBefore_setDcDuring]; exact hqdb)
      (by simp only [Ctx.setDc, dcDuring_setDcDuring]; exact hqx)
      (by simp only [Ctx.setDc, dcAfter_setDcDuring]; exact hqda)
  | afterSlot =>
    exact midU_mk _ (by simp [Ctx.setDc, hex]) (by simp [Ctx.setDc, hp])
      (by simp only [Ctx.setDc, beforeChild_setDcAfter]; exact hqb)
      (by simp only [Ctx.setDc, afterChild_setDcAfter]; exact hqa)
      (by simp only [Ctx.setDc, dcBefore_setDcAfter]; exact hqdb)
      (by simp only [Ctx.setDc, dcDuring_setDcAfter]; exact hqdd)
      (by simp only [Ctx.setDc, dcAfter_setDcAfter]; exact hqx)

theorem quietOpt_getDc (c : Ctx) (sl : DSlot) (h : MidU c = true) :
    quietOpt (c.getDc sl) = true := by
  obtain ⟨hex, hp, hqb, hqa, hqdb, hqdd, hqda⟩ := midU_parts c h
  cases sl <;> simpa [Ctx.getDc]

theorem mid_tryIterCtx (c : Ctx) (i : Nat) (h : Mid c = true) :
    Mid (tryIterCtx c i) = true := by
  obtain ⟨hex, hun, hp, hqb, hqa, hqdb, hqdd, hqda⟩ := mid_parts c h
  exact mid_mk _ (by simp [tryIterCtx, hex]) (by simp [tryIterCtx, hun])
    (by simp [tryIterCtx, hp])
    (by simp only [tryIterCtx, beforeChild_withCore, beforeChild_setDcAfter,
      beforeChild_setDcDuring, beforeChild_setDcBefore]; exact hqb)
    (by simp only [tryIterCtx, afterChild_withCore, afterChild_setDcAfter,
      afterChild_setDcDuring, afterChild_setDcBefore]; exact hqa)
    (by simp [tryIterCtx, quietOpt]) (by simp [tryIterCtx, quietOpt])
    (by simp [tryIterCtx, quietOpt])

theorem mid_start (c : Ctx) (n r : Nat) (h : Quiet c = true) :
    Mid (c.withCore fun k =>
      { k with executing := true, numTries := n, retryInterval := r }) = true := by
  obtain ⟨hex, hun, hp, hqb, hqa, hqdb, hqdd, hqda⟩ := quiet_parts c h
  exact mid_mk _ (by simp) (by simp [hun]) (by simp [hp])
    (by simp only [beforeChild_withCore]; exact hqb)
    (by simp only [afterChild_withCore]; exact hqa)
    (by simp only [dcBefore_withCore]; exact hqdb)
    (by simp only [dcDuring_withCore]; exact hqdd)
    (by simp only [dcAfter_withCore]; exact hqda)

theorem quiet_finish (c : Ctx) (h : Mid c = true) :
    Quiet (c.withCore fun k => { k with executing := false }) = true := by
  obtain ⟨hex, hun, hp, hqb, hqa, hqdb, hqdd, hqda⟩ := mid_parts c h
  exact quiet_mk _ (by simp) (by simp [hun]) (by simp [hp])
    (by simp only [beforeChild_withCore]; exact hqb)
    (by simp only [afterChild_withCore]; exact hqa)
    (by simp only [dcBefore_withCore]; exact hqdb)
    (by simp only [dcDuring_withCore]; exact hqdd)
    (by simp only [dcAfter_withCore]; exact hqda)

theorem quiet_execCatch (c : Ctx) (t : Thrown) (h : Mid c = true) :
    Quiet (execCatch c t).1 = true := by
  obtain ⟨hex, hun, hp, hqb, hqa, hqdb, hqdd, hqda⟩ := mid_parts c h
  unfold execCatch
  exact quiet_mk _ (by simp) (by simp [hun]) (by simp [hp])
    (by simp only [beforeChild_withCore]; exact hqb)
    (by simp only [afterChild_withCore]; exact hqa)
    (by simp only [dcBefore_withCore]; exact hqdb)
    (by simp only [dcDuring_withCore]; exact hqdd)
    (by simp only [dcAfter_withCore]; exact hqda)

theorem midU_start (c : Ctx) (n r : Nat) (h : Quiet c = true) :
    MidU (undoStart c n r) = true := by
  obtain ⟨hex, hun, hp, hqb, hqa, hqdb, hqdd, hqda⟩ := quiet_parts c h
  unfold undoStart
  exact midU_mk _ (by simp [hex]) (by simp [hp])
    (by simp only [beforeChild_withCore]; exact hqb)
    (by simp only [afterChild_withCore]; exact hqa)
    (by simp only [dcBefore_withCore]; exact hqdb)
    (by simp only [dcDuring_withCore]; exact hqdd)
    (by simp only [dcAfter_withCore]; exact hqda)

theorem quiet_undoFinish (x : Ctx × StepRes × List Event)
    (h : MidU x.1 = true) (hnf : x.2.1 ≠ .fuelOut) :
    Quiet (undoFinish x).1 = true := by
  obtain ⟨hex, hp, hqb, hqa, hqdb, hqdd, hqda⟩ := midU_parts x.1 h
  rcases x with ⟨c, s, ev⟩
  cases s with
  | ok =>
    unfold undoFinish
    exact quiet_mk _ (by simpa using hex) (by simp) (by simpa using hp)
      (by simp only [beforeChild_withCore]; exact hqb)
      (by simp only [afterChild_withCore]; exact hqa)
      (by simp only [dcBefore_withCore]; exact hqdb)
      (by simp only [dcDuring_withCore]; exact hqdd)
      (by simp only [dcAfter_withCore]; exact hqda)
  | thrown th =>
    unfold undoFinish
    exact quiet_mk _ (by simpa using hex) (by simp) (by simpa using hp)
      (by simp only [beforeChild_withCore]; exact hqb)
      (by simp only [afterChild_withCore]; exact hqa)
      (by simp only [dcBefore_withCore]; exact hqdb)
      (by simp only [dcDuring_withCore]; exact hqdd)
      (by simp only [dcAfter_withCore]; exact hqda)
  | fuelOut => exact absurd rfl hnf

theorem execBeforePhaseG_mid
    (recur : Ctx → Nat → Nat → Ctx × ExecRes × List Event)
    (hrecA : ∀ c n2 r2, Quiet c = true → (recur c n2 r2).2.1 ≠ ExecRes.fuelOut →
      Quiet (recur c n2 r2).1 = true)
    (hrecBusy : ∀ c n2 r2, c.core.executing = true → c.pendingDuringChild = none →
      (recur c n2 r2).1 = c)
    (ctx : Ctx) (n r : Nat) (hm : Mid ctx = true) :
    (execBeforePhaseG recur ctx n r).2.1 ≠ StepRes.fuelOut →
    Mid (execBeforePhaseG recur ctx n r).1 = true := by
  obtain ⟨hex, hun, hp, hqb, hqa, hqdb, hqdd, hqda⟩ := mid_parts ctx hm
  unfold execBeforePhaseG
  cases hbc : ctx.beforeChild with
  | none =>
    dsimp only
    exact fun h => mid_withCore _ _ (by simp) (by simp) hm
  | some bc =>
    dsimp only
    have hqbc : Quiet bc = true := quietOpt_some_elim hqb hbc
    rcases htr : recur bc n r with ⟨t1, bres, bev⟩
    dsimp only
    cases bres with
    | thrown th =>
      dsimp only [ExecRes.resolved]
      intro h
      have hqt1 : Quiet t1 = true := by
        have h2 := hrecA bc n r hqbc (by rw [htr]; simp)
        rwa [htr] at h2
      exact mid_setBeforeChild _ _ (mid_withCore _ _ (by simp) (by simp) hm) hqt1
    | fuelOut =>
      dsimp only [ExecRes.resolved]
      intro h
      exact absurd rfl h
    | ok l =>
      dsimp only [ExecRes.resolved]
      intro h
      have hqt1 : Quiet t1 = true := by
        have h2 := hrecA bc n r hqbc (by rw [htr]; simp)
        rwa [htr] at h2
      have hmC : Mid (((ctx.withCore fun k =>
          { k with phases := { k.phases with beforeChildExecuted := true } }).setBeforeChild
            (some t1)).withCore fun k =>
          { k with phases := { k.phases with beforeChildSucceeded := true },
                   execResults := k.execResults ++ l }) = true :=
        mid_withCore _ _ (by simp) (by simp)
          (mid_setBeforeChild _ _ (mid_withCore _ _ (by simp) (by simp) hm) hqt1)
      have hbusy := hrecBusy _ 0 0 ((mid_parts _ hmC).1) ((mid_parts _ hmC).2.2.1)
      split
      · rw [hbusy]; exact hmC
      · rw [hbusy]; exact hmC
      · rw [hbusy]; exact mid_withCore _ _ (by simp) (by simp) hmC
    | undef =>
      dsimp only [ExecRes.resolved]
      intro h
      have hqt1 : Quiet t1 = true := by
        have h2 := hrecA bc n r hqbc (by rw [htr]; simp)
        rwa [htr] at h2
      have hmC : Mid (((ctx.withCore fun k =>
          { k with phases := { k.phases with beforeChildExecuted := true } }).setBeforeChild
            (some t1)).withCore fun k =>
          { k with phases := { k.phases with beforeChildSucceeded := true },
                   execResults := k.execResults ++ [RVal.undef] }) = true :=
        mid_withCore _ _ (by simp) (by simp)
          (mid_setBeforeChild _ _ (mid_withCore _ _ (by simp) (by simp) hm) hqt1)
      have hbusy := hrecBusy _ 0 0 ((mid_parts _ hmC).1) ((mid_parts _ hmC).2.2.1)
      split
      · rw [hbusy]; exact hmC
      · rw [hbusy]; exact hmC
      · rw [hbusy]; exact mid_withCore _ _ (by simp) (by simp) hmC

theorem execAfterPhaseG_mid
    (recur : Ctx → Nat → Nat → Ctx × ExecRes × List Event)
    (hrecA : ∀ c n2 r2, Quiet c = true → (recur c n2 r2).2.1 ≠ ExecRes.fuelOut →
      Quiet (recur c n2 r2).1 = true)
    (ctx : Ctx) (n r : Nat) (hm : Mid ctx = true) :
    (execAfterPhaseG recur ctx n r).2.1 ≠ StepRes.fuelOut →
    Mid (execAfterPhaseG recur ctx n r).1 = true := by
  obtain ⟨hex, hun, hp, hqb, hqa, hqdb, hqdd, hqda⟩ := mid_parts ctx hm
  unfold execAfterPhaseG
  cases hac : ctx.afterChild with
  | none =>
    dsimp only
    exact fun h => mid_withCore _ _ (by simp) (by simp) hm
  | some ac =>
    dsimp only
    have hqac : Quiet ac = true := quietOpt_some_elim hqa hac
    rcases htr : recur ac n r with ⟨t1, ares, aev⟩
    dsimp only
    cases ares with
    | thrown th =>
      dsimp only [ExecRes.resolved]
      intro h
      have hqt1 : Quiet t1 = true := by
        have h2 := hrecA ac n r hqac (by rw [htr]; simp)
        rwa [htr] at h2
      exact mid_setAfterChild _ _ (mid_withCore _ _ (by simp) (by simp) hm) hqt1
    | fuelOut =>
      dsimp only [ExecRes.resolved]
      intro h
      exact absurd rfl h
    | ok l =>
      dsimp only [ExecRes.resolved]
      intro h
      have hqt1 : Quiet t1 = true := by
        have h2 := hrecA ac n r hqac (by rw [htr]; simp)
        rwa [htr] at h2
      exact mid_withCore _ _ (by simp) (by simp)
        (mid_setAfterChild _ _ (mid_withCore _ _ (by simp) (by simp) hm) hqt1)
    | undef =>
      dsimp only [ExecRes.resolved]
      intro h
      have hqt1 : Quiet t1 = true := by
        have h2 := hrecA ac n r hqac (by rw [htr]; simp)
        rwa [htr] at h2
      exact mid_withCore _ _ (by simp) (by simp)
        (mid_setAfterChild _ _ (mid_withCore _ _ (by simp) (by simp) hm) hqt1)

theorem execTryLoopG_mid
    (recur : Ctx → Nat → Nat → Ctx × ExecRes × List Event)
    (hrecBusy : ∀ c n2 r2, c.core.executing = true → c.pendingDuringChild = none →
      (recur c n2 r2).1 = c)
    (f : Nat → Nat → UserOut) (n r : Nat) :
    ∀ (fl i : Nat) (ctx : Ctx), Mid ctx = true →
      Mid (execTryLoopG recur fl f ctx n r i).1 = true := by
  intro fl
  induction fl with
  | zero => exact fun i ctx h => h
  | succ fl ih =>
    intro i ctx hm
    unfold execTryLoopG
    by_cases hc : i < n ∧ ctx.core.phases.execFunctionSucceeded = false
    · rw [if_pos hc]
      dsimp only
      simp only [tryIterCtx_core_execID]
      have hm2 : Mid (tryIterCtx ctx i) = true := mid_tryIterCtx ctx i hm
      cases hg : f ctx.core.execID i with
      | fail e =>
        exact ih (i + 1) _ (mid_withCore _ _ (by simp) (by simp) hm2)
      | succeed v? =>
        cases v? with
        | none =>
          have hm4 : Mid ((tryIterCtx ctx i).withCore fun k =>
              { k with phases := { k.phases with execFunctionSucceeded := true } }) = true :=
            mid_withCore _ _ (by simp) (by simp) hm2
          have hbusy := hrecBusy _ 0 0 ((mid_parts _ hm4).1) ((mid_parts _ hm4).2.2.1)
          dsimp only
          split
          · rw [hbusy]; exact hm4
          · exact ih (i + 1) _
              (mid_withCore _ _ (by simp) (by simp) (by rw [hbusy]; exact hm4))
          · exact ih (i + 1) _ (by rw [hbusy]; exact hm4)
        | some vv =>
          have hm4 : Mid (((tryIterCtx ctx i).withCore fun k =>
              { k with phases := { k.phases with execFunctionSucceeded := true } }).withCore
              fun k => { k with opResults := k.opResults ++ [vv] }) = true :=
            mid_withCore _ _ (by simp) (by simp)
              (mid_withCore _ _ (by simp) (by simp) hm2)
          have hbusy := hrecBusy _ 0 0 ((mid_parts _ hm4).1) ((mid_parts _ hm4).2.2.1)
          dsimp only
          split
          · rw [hbusy]; exact hm4
          · exact ih (i + 1) _
              (mid_withCore _ _ (by simp) (by simp) (by rw [hbusy]; exact hm4))
          · exact ih (i + 1) _ (by rw [hbusy]; exact hm4)
    · rw [if_neg hc]
      exact hm

theorem execRetryPhaseG_mid
    (recur : Ctx → Nat → Nat → Ctx × ExecRes × List Event)
    (hrecBusy : ∀ c n2 r2, c.core.executing = true → c.pendingDuringChild = none →
      (recur c n2 r2).1 = c)
    (ctx : Ctx) (n r : Nat) (hm : Mid ctx = true) :
    Mid (execRetryPhaseG recur ctx n r).1 = true := by
  unfold execRetryPhaseG
  cases hfn : ctx.core.execFunction with
  | none =>
    dsimp only
    exact mid_withCore _ _ (by simp) (by simp) hm
  | some f =>
    dsimp only
    have hmt : Mid (execTryLoopG recur (Nat.succ n) f
        (ctx.withCore fun k => { k with opResults := [] }) n r 0).1 = true :=
      execTryLoopG_mid recur hrecBusy f n r (Nat.succ n) 0 _
        (mid_withCore _ _ (by simp) (by simp) hm)
    split
    · exact hmt
    · exact hmt
    · split
      · exact mid_withCore _ _ (by simp) (by simp) hmt
      · exact hmt

theorem quiet_of_midU_withCore (c : Ctx) (f : CtxCore → CtxCore)
    (hfx : (f c.core).executing = c.core.executing)
    (hfu : (f c.core).undoing = false)
    (h : MidU c = true) : Quiet (c.withCore f) = true := by
  obtain ⟨hex, hp, hqb, hqa, hqdb, hqdd, hqda⟩ := midU_parts c h
  exact quiet_mk _ (by simp [hfx, hex]) (by simp [hfu]) (by simp [hp])
    (by simp only [beforeChild_withCore]; exact hqb)
    (by simp only [afterChild_withCore]; exact hqa)
    (by simp only [dcBefore_withCore]; exact hqdb)
    (by simp only [dcDuring_withCore]; exact hqdd)
    (by simp only [dcAfter_withCore]; exact hqda)

theorem undoDcChildG_midU
    (urecur : Ctx → Nat → Nat → Ctx × UndoRes × List Event)
    (hrecE : ∀ c n2 r2, Quiet c = true → (urecur c n2 r2).2.1 ≠ UndoRes.fuelOut →
      Quiet (urecur c n2 r2).1 = true)
    (ctx : Ctx) (slot : DSlot) (tb : Bool) (hm : MidU ctx = true) :
    (undoDcChildG urecur ctx slot tb).2.1 ≠ StepRes.fuelOut →
    MidU (undoDcChildG urecur ctx slot tb).1 = true := by
  unfold undoDcChildG
  cases hdc : ctx.getDc slot with
  | none =>
    dsimp only
    exact fun h => hm
  | some comp =>
    have hqc : Quiet comp = true := quietOpt_some_elim (quietOpt_getDc ctx slot hm) hdc
    obtain ⟨cx, cu, cp, cqb, cqa, cqdb, cqdd, cqda⟩ := quiet_parts comp hqc
    dsimp only
    cases tb with
    | true =>
      simp only [eq_self_iff_true, if_true]
      cases htg : comp.beforeChild with
      | none => exact fun h => hm
      | some tgt =>
        have hqt : Quiet tgt = true := quietOpt_some_elim cqb htg
        dsimp only
        rcases hu : urecur tgt 0 ctx.core.retryInterval with ⟨t1, ures, uev⟩
        dsimp only
        cases ures with
        | fuelOut =>
          intro h
          exact absurd rfl h
        | ok l =>
          intro h
          have hqt1 : Quiet t1 = true := by
            have h2 := hrecE tgt 0 ctx.core.retryInterval hqt (by rw [hu]; simp)
            rwa [hu] at h2
          exact midU_withCore _ _ (by simp)
            (midU_setDc _ _ _ hm (quiet_setBeforeChild _ _ hqc hqt1))
        | thrown th =>
          intro h
          have hqt1 : Quiet t1 = true := by
            have h2 := hrecE tgt 0 ctx.core.retryInterval hqt (by rw [hu]; simp)
            rwa [hu] at h2
          exact midU_setDc _ _ _ hm (quiet_setBeforeChild _ _ hqc hqt1)
    | false =>
      simp only [Bool.false_eq_true, if_false]
      cases htg : comp.afterChild with
      | none => exact fun h => hm
      | some tgt =>
        have hqt : Quiet tgt = true := quietOpt_some_elim cqa htg
        dsimp only
        rcases hu : urecur tgt 0 ctx.core.retryInterval with ⟨t1, ures, uev⟩
        dsimp only
        cases ures with
        | fuelOut =>
          intro h
          exact absurd rfl h
        | ok l =>
          intro h
          have hqt1 : Quiet t1 = true := by
            have h2 := hrecE tgt 0 ctx.core.retryInterval hqt (by rw [hu]; simp)
            rwa [hu] at h2
          exact midU_withCore _ _ (by simp)
            (midU_setDc _ _ _ hm (quiet_setAfterChild _ _ hqc hqt1))
        | thrown th =>
          intro h
          have hqt1 : Quiet t1 = true := by
            have h2 := hrecE tgt 0 ctx.core.retryInterval hqt (by rw [hu]; simp)
            rwa [hu] at h2
          exact midU_setDc _ _ _ hm (quiet_setAfterChild _ _ hqc hqt1)

theorem undoAfterChildStepG_midU
    (urecur : Ctx → Nat → Nat → Ctx × UndoRes × List Event)
    (hrecE : ∀ c n2 r2, Quiet c = true → (urecur c n2 r2).2.1 ≠ UndoRes.fuelOut →
      Quiet (urecur c n2 r2).1 = true)
    (ctx : Ctx) (n r : Nat) (hm : MidU ctx = true) :
    (undoAfterChildStepG urecur ctx n r).2.1 ≠ StepRes.fuelOut →
    MidU (undoAfterChildStepG urecur ctx n r).1 = true := by
  obtain ⟨hex, hp, hqb, hqa, hqdb, hqdd, hqda⟩ := midU_parts ctx hm
  unfold undoAfterChildStepG
  by_cases hflag : ctx.core.phases.afterChildExecuted = true
  · rw [if_pos hflag]
    cases hac : ctx.afterChild with
    | none => exact fun h => hm
    | some ac =>
      have hqac : Quiet ac = true := quietOpt_some_elim hqa hac
      dsimp only
      rcases hu : urecur ac n r with ⟨t1, ures, uev⟩
      dsimp only
      cases ures with
      | fuelOut =>
        intro h
        exact absurd rfl h
      | ok l =>
        intro h
        have hqt1 : Quiet t1 = true := by
          have h2 := hrecE ac n r hqac (by rw [hu]; simp)
          rwa [hu] at h2
        exact midU_withCore _ _ (by simp) (midU_setAfterChild _ _ hm hqt1)
      | thrown th =>
        intro h
        have hqt1 : Quiet t1 = true := by
          have h2 := hrecE ac n r hqac (by rw [hu]; simp)
          rwa [hu] at h2
        exact midU_setAfterChild _ _ hm hqt1
  · rw [if_neg hflag]
    exact fun h => hm

theorem undoBeforeChildStepG_midU
    (urecur : Ctx → Nat → Nat → Ctx × UndoRes × List Event)
    (hrecE : ∀ c n2 r2, Quiet c = true → (urecur c n2 r2).2.1 ≠ UndoRes.fuelOut →
      Quiet (urecur c n2 r2).1 = true)
    (ctx : Ctx) (n r : Nat) (hm : MidU ctx = true) :
    (undoBeforeChildStepG urecur ctx n r).2.1 ≠ StepRes.fuelOut →
    MidU (undoBeforeChildStepG urecur ctx n r).1 = true := by
  obtain ⟨hex, hp, hqb, hqa, hqdb, hqdd, hqda⟩ := midU_parts ctx hm
  unfold undoBeforeChildStepG
  by_cases hflag : ctx.core.phases.beforeChildExecuted = true
  · rw [if_pos hflag]
    cases hbc : ctx.beforeChild with
    | none => exact fun h => hm
    | some bc =>
      have hqbc : Quiet bc = true := quietOpt_some_elim hqb hbc
      dsimp only
      rcases hu : urecur bc n r with ⟨t1, ures, uev⟩
      dsimp only
      cases ures with
      | fuelOut =>
        intro h
        exact absurd rfl h
      | ok l =>
        intro h
        have hqt1 : Quiet t1 = true := by
          have h2 := hrecE bc n r hqbc (by rw [hu]; simp)
          rwa [hu] at h2
        exact midU_withCore _ _ (by simp) (midU_setBeforeChild _ _ hm hqt1)
      | thrown th =>
        intro h
        have hqt1 : Quiet t1 = true := by
          have h2 := hrecE bc n r hqbc (by rw [hu]; simp)
          rwa [hu] at h2
        exact midU_setBeforeChild _ _ hm hqt1
  · rw [if_neg hflag]
    exact fun h => hm

theorem undoTryLoop_midU (g : Nat → Nat → UserOut) (n r : Nat) :
    ∀ (fl i : Nat) (ctx : Ctx), MidU ctx = true →
      MidU (undoTryLoop g fl ctx n r i).1 = true := by
  intro fl
  induction fl with
  | zero => exact fun i ctx h => h
  | succ fl ih =>
    intro i ctx hm
    unfold undoTryLoop
    by_cases hc : i < n ∧ ctx.core.phases.undoFunctionSucceeded = false
    · rw [if_pos hc]
      dsimp only
      simp only [core_withCore]
      cases hg : g ctx.core.execID i with
      | fail e =>
        exact ih (i + 1) _
          (midU_withCore _ _ (by simp) (midU_withCore _ _ (by simp) hm))
      | succeed v? =>
        cases v? with
        | none =>
          exact ih (i + 1) _
            (midU_withCore _ _ (by simp) (midU_withCore _ _ (by simp) hm))
        | some vv =>
          exact ih (i + 1) _
            (midU_withCore _ _ (by simp) (midU_withCore _ _ (by simp)
              (midU_withCore _ _ (by simp) hm)))
    · rw [if_neg hc]
      exact hm

theorem undoUserStep_midU (ctx : Ctx) (n r : Nat) (hm : MidU ctx = true) :
    (undoUserStep ctx n r).2.1 ≠ StepRes.fuelOut →
    MidU (undoUserStep ctx n r).1 = true := by
  unfold undoUserStep
  by_cases hflag : ctx.core.phases.execFunctionExecuted = true ∧
      ctx.core.phases.execFunctionSucceeded = true
  · rw [if_pos hflag]
    cases hfn : ctx.core.undoFunction with
    | none => exact fun h => hm
    | some g =>
      dsimp only
      have hmt : MidU (undoTryLoop g (Nat.succ n)
          (ctx.withCore fun k => { k with opUndoResults := [] }) n r 0).1 = true :=
        undoTryLoop_midU g n r (Nat.succ n) 0 _ (midU_withCore _ _ (by simp) hm)
      split
      · exact fun h => hmt
      · exact fun h => midU_withCore _ _ (by simp) hmt
  · rw [if_neg hflag]
    exact fun h => hm

theorem stepBind_pres (P : Ctx → Prop) (x : Ctx × StepRes × List Event)
    (g : Ctx → Ctx × StepRes × List Event)
    (hx : x.2.1 ≠ StepRes.fuelOut → P x.1)
    (hg : ∀ c, P c → (g c).2.1 ≠ StepRes.fuelOut → P (g c).1) :
    (stepBind x g).2.1 ≠ StepRes.fuelOut → P (stepBind x g).1 := by
  rcases x with ⟨c, s, ev⟩
  cases s with
  | ok =>
    intro h
    dsimp only [stepBind] at h ⊢
    exact hg c (hx (by simp)) h
  | thrown th =>
    intro h
    dsimp only [stepBind] at h ⊢
    exact hx (by simp)
  | fuelOut =>
    intro h
    exact absurd rfl h

theorem undoSteps_midU
    (urecur : Ctx → Nat → Nat → Ctx × UndoRes × List Event)
    (hrecE : ∀ c n2 r2, Quiet c = true → (urecur c n2 r2).2.1 ≠ UndoRes.fuelOut →
      Quiet (urecur c n2 r2).1 = true)
    (ctx : Ctx) (n r : Nat) (hm : MidU ctx = true) :
    (undoSteps urecur ctx n r).2.1 ≠ StepRes.fuelOut →
    MidU (undoSteps urecur ctx n r).1 = true := by
  unfold undoSteps
  refine stepBind_pres (fun c => MidU c = true) _ _
    (undoDcChildG_midU urecur hrecE ctx .afterSlot false hm) ?_
  intro c1 h1
  refine stepBind_pres (fun c => MidU c = true) _ _
    (undoAfterChildStepG_midU urecur hrecE c1 n r h1) ?_
  intro c2 h2
  refine stepBind_pres (fun c => MidU c = true) _ _
    (undoDcChildG_midU urecur hrecE c2 .afterSlot true h2) ?_
  intro c3 h3
  refine stepBind_pres (fun c => MidU c = true) _ _
    (undoDcChildG_midU urecur hrecE c3 .duringSlot false h3) ?_
  intro c4 h4
  refine stepBind_pres (fun c => MidU c = true) _ _
    (undoUserStep_midU c4 n r h4) ?_
  intro c5 h5
  refine stepBind_pres (fun c => MidU c = true) _ _
    (undoDcChildG_midU urecur hrecE c5 .duringSlot true h5) ?_
  intro c6 h6
  refine stepBind_pres (fun c => MidU c = true) _ _
    (undoDcChildG_midU urecur hrecE c6 .beforeSlot false h6) ?_
  intro c7 h7
  refine stepBind_pres (fun c => MidU c = true) _ _
    (undoBeforeChildStepG_midU urecur hrecE c7 n r h7) ?_
  intro c8 h8
  exact undoDcChildG_midU urecur hrecE c8 .beforeSlot true h8

/-- Completed `exec` and `undo` calls preserve hereditary quietness: from
a quiet tree, the post-state of any completed call is again quiet. -/
theorem engine_quiet : ∀ fuel : Nat,
    (∀ (ctx : Ctx) (n r : Nat), Quiet ctx = true →
      (execF fuel ctx n r).2.1 ≠ ExecRes.fuelOut →
      Quiet (execF fuel ctx n r).1 = true) ∧
    (∀ (ctx : Ctx) (n r : Nat), Quiet ctx = true →
      (undoF fuel ctx n r).2.1 ≠ UndoRes.fuelOut →
      Quiet (undoF fuel ctx n r).1 = true) := by
  intro fuel
  induction fuel with
  | zero =>
    constructor
    · intro ctx n r hq h
      exact absurd rfl h
    · intro ctx n r hq h
      exact absurd rfl h
  | succ fuel ih =>
    have hbusyE : ∀ c n2 r2, c.core.executing = true → c.pendingDuringChild = none →
        (execF fuel c n2 r2).1 = c :=
      fun c n2 r2 hx hp => execF_busy_any fuel n2 r2 c hx hp
    constructor
    · intro ctx n r hq hnf
      obtain ⟨hex0, hun0, hp0, hqb, hqa, hqdb, hqdd, hqda⟩ := quiet_parts ctx hq
      rcases hrun : execF (Nat.succ fuel) ctx n r with ⟨c', res, ev⟩
      have hnf2 : res ≠ ExecRes.fuelOut := by rw [hrun] at hnf; exact hnf
      dsimp only
      by_cases hid : ctx.core.execID = 0
      · have heq : execF (Nat.succ fuel) ctx n r =
            (ctx, .thrown (.single (.sysError 400 0)), []) := by
          simp [execF, hid]
        rw [heq] at hrun
        simp only [Prod.mk.injEq] at hrun
        rw [← hrun.1]
        exact hq
      · simp only [execF] at hrun
        rw [if_neg hid] at hrun
        rw [if_neg (by simp [hex0])] at hrun
        have hmCTX2 := mid_start (resetC ctx) (jsDefault n 1) (jsDefault r 1000)
          (quiet_reset ctx)
        have hmbF := execBeforePhaseG_mid (execF fuel) ih.1 hbusyE _
          (jsDefault n 1) (jsDefault r 1000) hmCTX2
        rcases hb : execBeforePhaseG (execF fuel)
            ((resetC ctx).withCore fun k =>
              { k with executing := true, numTries := jsDefault n 1,
                       retryInterval := jsDefault r 1000 })
            (jsDefault n 1) (jsDefault r 1000) with ⟨b1, bs, bev⟩
        rw [hb] at hrun hmbF
        dsimp only at hrun hmbF
        cases bs with
        | fuelOut =>
          simp only [Prod.mk.injEq] at hrun
          exact absurd hrun.2.1.symm hnf2
        | thrown th =>
          simp only [Prod.mk.injEq] at hrun
          rw [← hrun.1]
          exact quiet_execCatch _ th (hmbF (by simp))
        | ok =>
          have hmb1 : Mid b1 = true := hmbF (by simp)
          have hmd := execRetryPhaseG_mid (execF fuel) hbusyE b1
            (jsDefault n 1) (jsDefault r 1000) hmb1
          rcases hd : execRetryPhaseG (execF fuel) b1
              (jsDefault n 1) (jsDefault r 1000) with ⟨d1, ds, dev⟩
          rw [hd] at hrun hmd
          dsimp only at hrun hmd
          cases ds with
          | fuelOut =>
            simp only [Prod.mk.injEq] at hrun
            exact absurd hrun.2.1.symm hnf2
          | thrown th =>
            simp only [Prod.mk.injEq] at hrun
            rw [← hrun.1]
            exact quiet_execCatch _ th hmd
          | ok =>
            have hmaF := execAfterPhaseG_mid (execF fuel) ih.1 d1
              (jsDefault n 1) (jsDefault r 1000) hmd
            rcases ha : execAfterPhaseG (execF fuel) d1
                (jsDefault n 1) (jsDefault r 1000) with ⟨a1, sa, aev⟩
            rw [ha] at hrun hmaF
            dsimp only at hrun hmaF
            cases sa with
            | fuelOut =>
              simp only [Prod.mk.injEq] at hrun
              exact absurd hrun.2.1.symm hnf2
            | thrown th =>
              simp only [Prod.mk.injEq] at hrun
              rw [← hrun.1]
              exact quiet_execCatch _ th (hmaF (by simp))
            | ok =>
              simp only [Prod.mk.injEq] at hrun
              rw [← hrun.1]
              exact quiet_finish _ (hmaF (by simp))
    · intro ctx n r hq hnf
      obtain ⟨hex0, hun0, hp0, hqb, hqa, hqdb, hqdd, hqda⟩ := quiet_parts ctx hq
      rcases hrun : undoF (Nat.succ fuel) ctx n r with ⟨c', res, ev⟩
      have hnf2 : res ≠ UndoRes.fuelOut := by rw [hrun] at hnf; exact hnf
      dsimp only
      simp only [undoF] at hrun
      rw [if_neg (by simp [hun0])] at hrun
      have hmsteps := undoSteps_midU (undoF fuel) ih.2
        (undoStart ctx (jsDefault n 1) (jsDefault r 1000))
        (jsDefault n 1) (jsDefault r 1000)
        (midU_start ctx (jsDefault n 1) (jsDefault r 1000) hq)
      rcases hst : undoSteps (undoF fuel)
          (undoStart ctx (jsDefault n 1) (jsDefault r 1000))
          (jsDefault n 1) (jsDefault r 1000) with ⟨s1, ss, sev⟩
      rw [hst] at hrun hmsteps
      dsimp only at hmsteps
      cases ss with
      | fuelOut =>
        simp only [undoFinish, Prod.mk.injEq] at hrun
        exact absurd hrun.2.1.symm hnf2
      | ok =>
        simp only [undoFinish, Prod.mk.injEq] at hrun
        rw [← hrun.1]
        exact quiet_of_midU_withCore _ _ (by simp) (by simp) (hmsteps (by simp))
      | thrown th =>
        simp only [undoFinish, Prod.mk.injEq] at hrun
        rw [← hrun.1]
        exact quiet_of_midU_withCore _ _ (by simp) (by simp) (hmsteps (by simp))

/-- C6: for every context reachable from `create` by any sequence of
completed `exec` and `undo` calls, the `executing` and `undoing` flags are
never both set at the same time — indeed between calls the whole tree is
hereditarily idle (neither flag set anywhere, nothing staged), so a
context is either executing, undoing, or idle, never two at once. -/
theorem c6_exec_undo_exclusive (c : Ctx) (h : Reach c) :
    (c.core.executing && c.core.undoing) = false ∧ Quiet c = true := by
  have hq : Quiet c = true := by
    induction h with
    | init id ps tE tU =>
      simp [createCtx, Quiet]
    | stepExec fuel n r hr hrun hnf ih =>
      have h2 := (engine_quiet fuel).1 _ n r ih (by rw [hrun]; exact hnf)
      rwa [hrun] at h2
    | stepUndo fuel n r hr hrun hnf ih =>
      have h2 := (engine_quiet fuel).2 _ n r ih (by rw [hrun]; exact hnf)
      rwa [hrun] at h2
  obtain ⟨h1, h2, _⟩ := quiet_parts c hq
  exact ⟨by simp [h1, h2], hq⟩

/-- Witness for C6: the post-state of a concrete completed exec on a
fresh context has neither flag set and is hereditarily quiet. -/
theorem c6_witness :
    ((execF 30 (createCtx 5 [] (some okOracle) (some failOracle)) 1 1).1.core.executing &&
     (execF 30 (createCtx 5 [] (some okOracle) (some failOracle)) 1 1).1.core.undoing) = false ∧
    Quiet (execF 30 (createCtx 5 [] (some okOracle) (some failOracle)) 1 1).1 = true :=
  c6_exec_undo_exclusive _
    (Reach.stepExec 30 1 1 (Reach.init 5 [] (some okOracle) (some failOracle)) rfl
      (fun hcon => ExecRes.noConfusion hcon))

end Aspen
